import Mathlib

/-!
Verification development for the document-processing core of a browser engine
(arena-based DOM, CSS selector matching and cascade, box layout, inline layout).

The definitions below are a shallow embedding of the Rust sources:
  src/dom/{node,attributes,document}.rs
  src/css/{selector,style,properties,parser,context}.rs
  src/layout/{box_model,tree,inline}.rs

Modelling conventions:
  - `usize` identifiers become `Nat`; vector indexing becomes `List.get?`-style
    lookup, and `if let Some(x) = get_mut(i) { ... }` becomes `listModify`
    (a no-op when the index is out of range, as in the source).
  - `f32` geometry becomes `ℚ` (exact rational arithmetic; the numeric literal
    0.6 is modelled as 3/5 and 1.2 as 6/5).
  - Hash maps that are only ever read pointwise (attributes, computed-style
    properties, the computed-style cache) become function maps `κ → Option ν`.
  - Character classes (whitespace, alphanumeric) use Lean's ASCII versions.
  - Loops that walk parent or sibling chains, and recursive tree traversals,
    take an explicit fuel argument; on well-formed (acyclic) documents any
    fuel of at least the arena size reproduces the source behaviour.
-/

namespace Browser

/-! ## List and string helpers -/

/-- Functional version of `if let Some(x) = v.get_mut(i) { *x = f(x) }`:
modify the element at index `i`, no-op when out of range. -/
def listModify (l : List α) (i : Nat) (f : α → α) : List α :=
  match l, i with
  | [], _ => []
  | x :: xs, 0 => f x :: xs
  | x :: xs, n + 1 => x :: listModify xs n f

@[simp]
theorem listModify_nil (i : Nat) (f : α → α) : listModify [] i f = [] := by
  cases i <;> rfl

@[simp]
theorem length_listModify (l : List α) (i : Nat) (f : α → α) :
    (listModify l i f).length = l.length := by
  induction l generalizing i with
  | nil => simp
  | cons x xs ih => cases i <;> simp [listModify, ih]

theorem get?_listModify (l : List α) (i : Nat) (f : α → α) (j : Nat) :
    (listModify l i f).get? j = if j = i then (l.get? i).map f else l.get? j := by
  induction l generalizing i j with
  | nil => simp
  | cons x xs ih =>
    cases i with
    | zero => cases j <;> simp [listModify]
    | succ n =>
      cases j with
      | zero => simp [listModify]
      | succ m => simpa [listModify, Nat.succ_inj] using ih n m

theorem get?_listModify_ne (l : List α) (i : Nat) (f : α → α) (j : Nat) (h : j ≠ i) :
    (listModify l i f).get? j = l.get? j := by
  rw [get?_listModify]; simp [h]

theorem get?_listModify_self (l : List α) (i : Nat) (f : α → α) :
    (listModify l i f).get? i = (l.get? i).map f := by
  rw [get?_listModify]; simp

/-- ASCII lowercase conversion of one character (kernel-reducible). -/
def charLower (c : Char) : Char :=
  match c with
  | 'A' => 'a' | 'B' => 'b' | 'C' => 'c' | 'D' => 'd' | 'E' => 'e' | 'F' => 'f'
  | 'G' => 'g' | 'H' => 'h' | 'I' => 'i' | 'J' => 'j' | 'K' => 'k' | 'L' => 'l'
  | 'M' => 'm' | 'N' => 'n' | 'O' => 'o' | 'P' => 'p' | 'Q' => 'q' | 'R' => 'r'
  | 'S' => 's' | 'T' => 't' | 'U' => 'u' | 'V' => 'v' | 'W' => 'w' | 'X' => 'x'
  | 'Y' => 'y' | 'Z' => 'z' | _ => c

/-- `str::to_lowercase` (ASCII model). -/
def strLower (s : String) : String := ⟨s.data.map charLower⟩

/-- `str::trim` (ASCII whitespace model). -/
def strTrim (s : String) : String :=
  ⟨((s.data.dropWhile Char.isWhitespace).reverse.dropWhile Char.isWhitespace).reverse⟩

/-- Split a character list on a predicate, keeping empty pieces
(the semantics of Rust `str::split`). -/
def splitPred (p : Char → Bool) : List Char → List (List Char)
  | [] => [[]]
  | x :: xs =>
    match splitPred p xs with
    | [] => if p x then [[], []] else [[x]]
    | h :: t => if p x then [] :: h :: t else (x :: h) :: t

/-- Rust `str::split(c)`. -/
def splitOnChar (c : Char) (s : String) : List String :=
  (splitPred (fun x => x = c) s.data).map String.mk

/-- Rust `str::split_whitespace`: whitespace-separated words, empties dropped. -/
def wordsOf (s : String) : List String :=
  ((splitPred Char.isWhitespace s.data).map String.mk).filter (fun w => w ≠ "")

/-- Rust `str::starts_with(&str)`. -/
def strStartsWith (s pre : String) : Bool := pre.data.isPrefixOf s.data

/-- Rust `str::ends_with(&str)`. -/
def strEndsWith (s suf : String) : Bool := suf.data.reverse.isPrefixOf s.data.reverse

/-- Rust `str::replace('_', "-")` as used by `PropertyId::from_name`. -/
def replaceUnderscores (s : String) : String :=
  ⟨s.data.map (fun c => if c = '_' then '-' else c)⟩

/-- Split a character list at the first occurrence of `c`;
`none` when `c` does not occur.  Models `str::find` followed by slicing. -/
def splitAtFirst (c : Char) : List Char → Option (List Char × List Char)
  | [] => none
  | x :: xs =>
    if x = c then some ([], xs)
    else (splitAtFirst c xs).map (fun p => (x :: p.1, p.2))

/-- Rust `str::trim_matches(c)`: strip all leading and trailing copies of `c`. -/
def trimMatches (c : Char) (l : List Char) : List Char :=
  ((l.dropWhile (fun x => x = c)).reverse.dropWhile (fun x => x = c)).reverse

/-- Rust `Peekable::take_while` via `by_ref`: returns the collected run and the
remaining characters, where the first failing character is consumed and lost. -/
def takeWhileConsume (p : Char → Bool) (l : List Char) : List Char × List Char :=
  (l.takeWhile p, (l.dropWhile p).tail)

/-- Substring containment test, Rust `str::contains(&str)`. -/
def containsSub (hay pat : String) : Bool :=
  (List.range (hay.toList.length + 1)).any
    (fun i => pat.toList.isPrefixOf (hay.toList.drop i))

/-! ## DOM: nodes and the document arena (src/dom/node.rs, attributes.rs, document.rs) -/

/-- Attribute map `name → value`; `FnvHashMap<String, String>` read pointwise. -/
def Attributes : Type := String → Option String

def Attributes.empty : Attributes := fun _ => none

def Attributes.set (a : Attributes) (name value : String) : Attributes :=
  fun n => if n = name then some value else a n

def Attributes.get (a : Attributes) (name : String) : Option String := a name

/-- `Attributes::classes` / `has_class`: words of the `class` attribute. -/
def Attributes.classes (a : Attributes) : List String :=
  ((a.get "class").map wordsOf).getD []

def Attributes.has_class (a : Attributes) (c : String) : Bool :=
  a.classes.any (fun w => w = c)

/-- `NodeData` variants of the DOM node. -/
inductive NodeData
  | document
  | doctype (name publicId systemId : String)
  | element (tagName : String) (ns : Option String) (attributes : Attributes)
  | text (content : String)
  | comment (content : String)
  | pi (target data : String)

/-- A DOM node of the arena. -/
structure Node where
  id : Nat
  data : NodeData
  parent : Option Nat
  children : List Nat
  prevSibling : Option Nat
  nextSibling : Option Nat

def Node.mkNew (id : Nat) (data : NodeData) : Node :=
  ⟨id, data, none, [], none, none⟩

def Node.is_element (n : Node) : Bool :=
  match n.data with
  | .element _ _ _ => true
  | _ => false

def Node.tag_name (n : Node) : Option String :=
  match n.data with
  | .element t _ _ => some t
  | _ => none

def Node.text_content (n : Node) : Option String :=
  match n.data with
  | .text c => some c
  | _ => none

def Node.attributes (n : Node) : Option Attributes :=
  match n.data with
  | .element _ _ a => some a
  | _ => none

def Node.get_attribute (n : Node) (name : String) : Option String :=
  (n.attributes).bind (fun a => a.get name)

/-- The document arena. -/
structure Document where
  nodes : List Node
  root : Nat
  documentElement : Option Nat
  head : Option Nat
  body : Option Nat

/-- `Document::new`: root document node at index 0. -/
def Document.new : Document :=
  ⟨[Node.mkNew 0 .document], 0, none, none, none⟩

def Document.get_node (d : Document) (id : Nat) : Option Node :=
  d.nodes.get? id

def Document.node_count (d : Document) : Nat := d.nodes.length

def Document.modifyNode (d : Document) (i : Nat) (f : Node → Node) : Document :=
  { d with nodes := listModify d.nodes i f }

/-- `Document::create_element` (returns the updated arena and the new id). -/
def Document.create_element (d : Document) (tag : String) (ns : Option String) :
    Document × Nat :=
  let id := d.nodes.length
  ({ d with nodes := d.nodes ++ [Node.mkNew id (.element (strLower tag) ns Attributes.empty)] }, id)

def Document.create_text (d : Document) (content : String) : Document × Nat :=
  let id := d.nodes.length
  ({ d with nodes := d.nodes ++ [Node.mkNew id (.text content)] }, id)

def Document.create_comment (d : Document) (content : String) : Document × Nat :=
  let id := d.nodes.length
  ({ d with nodes := d.nodes ++ [Node.mkNew id (.comment content)] }, id)

def Document.set_attribute (d : Document) (id : Nat) (name value : String) : Document :=
  d.modifyNode id (fun n =>
    match n.data with
    | .element t ns a => { n with data := .element t ns (a.set name value) }
    | _ => n)

/-- First phase of `Document::append_child`: the sibling links from the
parent's current last child to the appended child. -/
def Document.sibUpdate (d : Document) (parentId childId : Nat) : Document :=
  match (d.get_node parentId).bind (fun p => p.children.getLast?) with
  | some lastChild =>
    (d.modifyNode lastChild (fun n => { n with nextSibling := some childId })).modifyNode
      childId (fun n => { n with prevSibling := some lastChild })
  | none => d

/-- Second phase of `Document::append_child`: the child's parent pointer and
the parent's child list. -/
def Document.linkUpdate (d : Document) (parentId childId : Nat) : Document :=
  (d.modifyNode childId (fun n => { n with parent := some parentId })).modifyNode
    parentId (fun n => { n with children := n.children ++ [childId] })

/-- Third phase of `Document::append_child`: the `html`/`head`/`body` caches. -/
def Document.cacheUpdate (d : Document) (childId : Nat) : Document :=
  if (d.get_node childId).bind Node.tag_name = some "html" then
    { d with documentElement := some childId }
  else if (d.get_node childId).bind Node.tag_name = some "head" then
    { d with head := some childId }
  else if (d.get_node childId).bind Node.tag_name = some "body" then
    { d with body := some childId }
  else d

/-- `Document::append_child`, step for step:
sibling links from the parent's current last child, then the child's parent
pointer, then the parent's child list, then the `html`/`head`/`body` caches. -/
def Document.append_child (d : Document) (parentId childId : Nat) : Document :=
  ((d.sibUpdate parentId childId).linkUpdate parentId childId).cacheUpdate childId

/-- Inner loop of `Document::get_title`: first text child of a title wins. -/
def Document.titleTextSearch (d : Document) : List Nat → Option String
  | [] => none
  | tid :: rest =>
    match d.get_node tid with
    | none => d.titleTextSearch rest
    | some tn =>
      match tn.text_content with
      | some content => some (strTrim content)
      | none => d.titleTextSearch rest

/-- Outer loop of `Document::get_title` over the head's direct children;
a `<title>` without a text child does not stop the search. -/
def Document.headChildSearch (d : Document) : List Nat → Option String
  | [] => none
  | cid :: rest =>
    match d.get_node cid with
    | none => d.headChildSearch rest
    | some c =>
      if c.tag_name = some "title" then
        match d.titleTextSearch c.children with
        | some s => some s
        | none => d.headChildSearch rest
      else d.headChildSearch rest

def Document.get_title (d : Document) : Option String :=
  match d.head with
  | none => none
  | some h =>
    match d.get_node h with
    | none => none
    | some hn => d.headChildSearch hn.children

/-- `collect_elements_by_tag`: depth-first, document order; fuel bounds depth. -/
def Document.collectByTag (d : Document) (tag : String) : Nat → Nat → List Nat
  | 0, _ => []
  | fuel + 1, nid =>
    match d.get_node nid with
    | none => []
    | some n =>
      (if n.tag_name = some tag then [nid] else []) ++
        n.children.foldl (fun acc c => acc ++ d.collectByTag tag fuel c) []

def Document.get_elements_by_tag_name (d : Document) (fuel : Nat) (tag : String) : List Nat :=
  d.collectByTag (strLower tag) fuel d.root

/-- `collect_text_content`: depth-first concatenation; fuel bounds depth. -/
def Document.collectText (d : Document) : Nat → Nat → String
  | 0, _ => ""
  | fuel + 1, nid =>
    match d.get_node nid with
    | none => ""
    | some n =>
      ((n.text_content).getD "") ++
        n.children.foldl (fun acc c => acc ++ d.collectText fuel c) ""

def Document.get_text_content (d : Document) (fuel : Nat) (nid : Nat) : String :=
  d.collectText fuel nid

/-! ## CSS selectors (src/css/selector.rs) -/

/-- CSS specificity `(inline, ids, classes, types)`; the derived Rust `Ord`
compares the fields lexicographically. -/
structure Specificity where
  inl : Nat
  ids : Nat
  classes : Nat
  types : Nat
deriving DecidableEq

/-- Lexicographic `≤` on specificities, the derived `PartialOrd`/`Ord` of the
source (`self.specificity >= other.specificity` uses this order). -/
def Specificity.leB (s t : Specificity) : Bool :=
  decide (s.inl < t.inl ∨ (s.inl = t.inl ∧
    (s.ids < t.ids ∨ (s.ids = t.ids ∧
      (s.classes < t.classes ∨ (s.classes = t.classes ∧ s.types ≤ t.types))))))

inductive AttributeOp
  | exact
  | contains
  | startsWith
  | prefixOp
  | suffixOp
  | substring
deriving DecidableEq

inductive SelectorPart
  | universal
  | typeName (name : String)
  | id (name : String)
  | cls (name : String)
  | attr (name : String) (op : Option AttributeOp) (value : Option String)
  | pseudoClass (name : String)
  | pseudoElem (name : String)
deriving DecidableEq

inductive Combinator
  | descendant
  | child
  | adjacent
  | sibling
deriving DecidableEq

/-- A parsed selector: compound groups, each tagged with the combinator that
was read immediately after it (the final group carries `none`). -/
structure Selector where
  parts : List (List SelectorPart × Option Combinator)
  specificity : Specificity
deriving DecidableEq

/-- `Selector::parse_attribute`. -/
def parse_attribute (s : String) : Option SelectorPart :=
  let s := strTrim s
  if s = "" then none
  else
    match splitAtFirst '=' s.toList with
    | none => some (.attr s none none)
    | some (n, v) =>
      let stripped :=
        match n.getLast? with
        | some '~' => (n.dropLast, AttributeOp.contains)
        | some '|' => (n.dropLast, AttributeOp.startsWith)
        | some '^' => (n.dropLast, AttributeOp.prefixOp)
        | some '$' => (n.dropLast, AttributeOp.suffixOp)
        | some '*' => (n.dropLast, AttributeOp.substring)
        | _ => (n, AttributeOp.exact)
      some (.attr (String.mk stripped.1) (some stripped.2)
        (some (String.mk (trimMatches '\'' (trimMatches '"' v)))))

/-- Flush the type-name buffer into the current compound group
(`SelectorPart::Type(buffer.to_lowercase())`). -/
def flushBuf (cur : List SelectorPart) (buf : List Char) : List SelectorPart :=
  if buf.isEmpty then cur else cur ++ [.typeName (strLower (String.mk buf))]

/-- Finalisation after the parse loop: flush the buffer, close the last group. -/
def finishParse (cur : List SelectorPart) (buf : List Char)
    (parts : List (List SelectorPart × Option Combinator)) :
    List (List SelectorPart × Option Combinator) :=
  let cur1 := flushBuf cur buf
  if cur1.isEmpty then parts else parts ++ [(cur1, none)]

/-- The character-level parse loop of `Selector::parse`.  Every iteration of
the Rust loop consumes at least one character, so fuel `length + 1` is exact. -/
def parseLoop : Nat → List Char → List SelectorPart →
    List (List SelectorPart × Option Combinator) → List Char →
    List (List SelectorPart × Option Combinator)
  | _, [], cur, parts, buf => finishParse cur buf parts
  | 0, _ :: _, cur, parts, buf => finishParse cur buf parts
  | fuel + 1, c :: rest, cur, parts, buf =>
    if c = ' ' ∨ c = '>' ∨ c = '+' ∨ c = '~' then
      let cur1 := flushBuf cur buf
      let afterSpaces := (c :: rest).dropWhile (fun x => x = ' ')
      let next :=
        match afterSpaces with
        | '>' :: r => (Combinator.child, r.dropWhile (fun x => x = ' '))
        | '+' :: r => (Combinator.adjacent, r.dropWhile (fun x => x = ' '))
        | '~' :: r => (Combinator.sibling, r.dropWhile (fun x => x = ' '))
        | r => (Combinator.descendant, r)
      if cur1.isEmpty then parseLoop fuel next.2 cur1 parts []
      else parseLoop fuel next.2 [] (parts ++ [(cur1, some next.1)]) []
    else if c = '#' then
      let cur1 := flushBuf cur buf
      let tk := takeWhileConsume (fun ch => ch.isAlphanum || ch == '-' || ch == '_') rest
      parseLoop fuel tk.2 (cur1 ++ [.id (String.mk tk.1)]) parts []
    else if c = '.' then
      let cur1 := flushBuf cur buf
      let tk := takeWhileConsume (fun ch => ch.isAlphanum || ch == '-' || ch == '_') rest
      parseLoop fuel tk.2 (cur1 ++ [.cls (String.mk tk.1)]) parts []
    else if c = '*' then
      parseLoop fuel rest (cur ++ [.universal]) parts buf
    else if c = '[' then
      let cur1 := flushBuf cur buf
      let tk := takeWhileConsume (fun ch => ch ≠ ']') rest
      let cur2 :=
        match parse_attribute (String.mk tk.1) with
        | some part => cur1 ++ [part]
        | none => cur1
      parseLoop fuel tk.2 cur2 parts []
    else if c = ':' then
      let cur1 := flushBuf cur buf
      let tk := takeWhileConsume (fun ch => ch.isAlphanum || ch == '-') rest
      parseLoop fuel tk.2 (cur1 ++ [.pseudoClass (String.mk tk.1)]) parts []
    else
      parseLoop fuel rest cur parts (buf ++ [c])

/-- `Selector::calculate_specificity`. -/
def calculate_specificity (parts : List (List SelectorPart × Option Combinator)) :
    Specificity :=
  let step := fun (acc : Nat × Nat × Nat) (p : SelectorPart) =>
    match p with
    | .id _ => (acc.1 + 1, acc.2.1, acc.2.2)
    | .cls _ => (acc.1, acc.2.1 + 1, acc.2.2)
    | .attr _ _ _ => (acc.1, acc.2.1 + 1, acc.2.2)
    | .pseudoClass _ => (acc.1, acc.2.1 + 1, acc.2.2)
    | .typeName _ => (acc.1, acc.2.1, acc.2.2 + 1)
    | .pseudoElem _ => (acc.1, acc.2.1, acc.2.2 + 1)
    | .universal => acc
  let counts := parts.foldl (fun acc grp => grp.1.foldl step acc) (0, 0, 0)
  ⟨0, counts.1, counts.2.1, counts.2.2⟩

/-- `Selector::parse`. -/
def Selector.parse (input : String) : Option Selector :=
  let input := strTrim input
  if input = "" then none
  else
    let cs := input.data
    let parts := parseLoop (cs.length + 1) cs [] [] []
    if parts.isEmpty then none
    else some ⟨parts, calculate_specificity parts⟩

/-- `Selector::node_matches_part`. -/
def node_matches_part (n : Node) (p : SelectorPart) : Bool :=
  match p with
  | .universal => true
  | .typeName t => n.tag_name == some t
  | .id i => n.get_attribute "id" == some i
  | .cls c => ((n.attributes).map (fun a => a.has_class c)).getD false
  | .attr name op value =>
    let av := n.get_attribute name
    match op, value, av with
    | none, _, some _ => true
    | none, _, none => false
    | some _, _, none => false
    | some .exact, some v, some a => a == v
    | some .contains, some v, some a => (wordsOf a).any (fun w => w = v)
    | some .prefixOp, some v, some a => strStartsWith a v
    | some .suffixOp, some v, some a => strEndsWith a v
    | some .substring, some v, some a => containsSub a v
    | some .startsWith, some v, some a => a == v || strStartsWith a (v ++ "-")
    | _, _, _ => false
  | .pseudoClass _ => false
  | .pseudoElem _ => false

def node_matches_parts (n : Node) (grp : List SelectorPart) : Bool :=
  grp.all (node_matches_part n)

def parentStep (d : Document) (i : Nat) : Option Nat := (d.get_node i).bind (fun n => n.parent)

def prevStep (d : Document) (i : Nat) : Option Nat := (d.get_node i).bind (fun n => n.prevSibling)

/-- The chain of ids reached by iterating `step` (the source's
`while let Some(id) = current` walks); fuel bounds the walk, with arena-size
fuel this is exact on acyclic documents. -/
def chainFrom (step : Nat → Option Nat) : Nat → Option Nat → List Nat
  | 0, _ => []
  | _ + 1, none => []
  | fuel + 1, some i => i :: chainFrom step fuel (step i)

/-- `Selector::matches_with_context`.  Note that the combinator consulted is
the one stored on the *current* group (`self.parts[part_index]`), while the
parser stores each combinator on the group *preceding* it. -/
def Selector.matches_with_context (sel : Selector) (d : Document)
    (partIndex nodeId : Nat) : Bool :=
  match d.get_node nodeId with
  | none => false
  | some node =>
    let grp := (sel.parts.getD partIndex ([], none)).1
    let comb := (sel.parts.getD partIndex ([], none)).2
    if node_matches_parts node grp then
      match partIndex with
      | 0 => true
      | k + 1 =>
        match comb with
        | none => true
        | some .child =>
          match node.parent with
          | some pid => sel.matches_with_context d k pid
          | none => false
        | some .descendant =>
          (chainFrom (parentStep d) (d.nodes.length + 1) node.parent).any
            (fun aid => sel.matches_with_context d k aid)
        | some .adjacent =>
          match node.prevSibling with
          | some pid => sel.matches_with_context d k pid
          | none => false
        | some .sibling =>
          (chainFrom (prevStep d) (d.nodes.length + 1) node.prevSibling).any
            (fun sid => sel.matches_with_context d k sid)
    else false

/-- `Selector::matches`. -/
def Selector.matches (sel : Selector) (d : Document) (nodeId : Nat) : Bool :=
  sel.matches_with_context d (sel.parts.length - 1) nodeId

/-! ## CSS properties (src/css/properties.rs) -/

inductive PropertyId
  | Display | Position | Float | Clear
  | Width | Height | MinWidth | MinHeight | MaxWidth | MaxHeight
  | Margin | MarginTop | MarginRight | MarginBottom | MarginLeft
  | Padding | PaddingTop | PaddingRight | PaddingBottom | PaddingLeft
  | BorderWidth | BorderTopWidth | BorderRightWidth | BorderBottomWidth | BorderLeftWidth
  | BorderColor | BorderTopColor | BorderRightColor | BorderBottomColor | BorderLeftColor
  | BorderStyle | BorderRadius
  | Color | BackgroundColor | Background
  | FontFamily | FontSize | FontWeight | FontStyle | LineHeight
  | TextAlign | TextDecoration | TextTransform | LetterSpacing | WordSpacing | WhiteSpace
  | FlexDirection | FlexWrap | JustifyContent | AlignItems | AlignContent
  | FlexGrow | FlexShrink | FlexBasis
  | GridTemplateColumns | GridTemplateRows | GridColumn | GridRow | Gap
  | Top | Right | Bottom | Left | ZIndex
  | Overflow | OverflowX | OverflowY | Visibility | Opacity | Cursor | BoxSizing
  | Unknown
deriving DecidableEq

/-- `PropertyId::from_name`. -/
def PropertyId.from_name (name : String) : PropertyId :=
  match replaceUnderscores (strLower name) with
  | "display" => .Display
  | "position" => .Position
  | "float" => .Float
  | "clear" => .Clear
  | "width" => .Width
  | "height" => .Height
  | "min-width" => .MinWidth
  | "min-height" => .MinHeight
  | "max-width" => .MaxWidth
  | "max-height" => .MaxHeight
  | "margin" => .Margin
  | "margin-top" => .MarginTop
  | "margin-right" => .MarginRight
  | "margin-bottom" => .MarginBottom
  | "margin-left" => .MarginLeft
  | "padding" => .Padding
  | "padding-top" => .PaddingTop
  | "padding-right" => .PaddingRight
  | "padding-bottom" => .PaddingBottom
  | "padding-left" => .PaddingLeft
  | "border-width" => .BorderWidth
  | "border-top-width" => .BorderTopWidth
  | "border-right-width" => .BorderRightWidth
  | "border-bottom-width" => .BorderBottomWidth
  | "border-left-width" => .BorderLeftWidth
  | "border-color" => .BorderColor
  | "border-top-color" => .BorderTopColor
  | "border-right-color" => .BorderRightColor
  | "border-bottom-color" => .BorderBottomColor
  | "border-left-color" => .BorderLeftColor
  | "border-style" => .BorderStyle
  | "border-radius" => .BorderRadius
  | "color" => .Color
  | "background-color" => .BackgroundColor
  | "background" => .Background
  | "font-family" => .FontFamily
  | "font-size" => .FontSize
  | "font-weight" => .FontWeight
  | "font-style" => .FontStyle
  | "line-height" => .LineHeight
  | "text-align" => .TextAlign
  | "text-decoration" => .TextDecoration
  | "text-transform" => .TextTransform
  | "letter-spacing" => .LetterSpacing
  | "word-spacing" => .WordSpacing
  | "white-space" => .WhiteSpace
  | "flex-direction" => .FlexDirection
  | "flex-wrap" => .FlexWrap
  | "justify-content" => .JustifyContent
  | "align-items" => .AlignItems
  | "align-content" => .AlignContent
  | "flex-grow" => .FlexGrow
  | "flex-shrink" => .FlexShrink
  | "flex-basis" => .FlexBasis
  | "grid-template-columns" => .GridTemplateColumns
  | "grid-template-rows" => .GridTemplateRows
  | "grid-column" => .GridColumn
  | "grid-row" => .GridRow
  | "gap" => .Gap
  | "top" => .Top
  | "right" => .Right
  | "bottom" => .Bottom
  | "left" => .Left
  | "z-index" => .ZIndex
  | "overflow" => .Overflow
  | "overflow-x" => .OverflowX
  | "overflow-y" => .OverflowY
  | "visibility" => .Visibility
  | "opacity" => .Opacity
  | "cursor" => .Cursor
  | "box-sizing" => .BoxSizing
  | _ => .Unknown

/-- `PropertyId::is_inherited`. -/
def PropertyId.is_inherited (p : PropertyId) : Bool :=
  match p with
  | .Color | .FontFamily | .FontSize | .FontWeight | .FontStyle | .LineHeight
  | .TextAlign | .TextDecoration | .TextTransform | .LetterSpacing | .WordSpacing
  | .WhiteSpace | .Visibility | .Cursor => true
  | _ => false

/-! ## Style rules and computed styles (src/css/style.rs) -/

structure StyleDeclaration where
  property : PropertyId
  value : String
  important : Bool
deriving DecidableEq

structure StyleRule where
  selectors : List Selector
  declarations : List StyleDeclaration

/-- A cascade entry: value with its source specificity and importance. -/
structure StyleProperty where
  value : String
  specificity : Specificity
  important : Bool
deriving DecidableEq

/-- `StyleProperty::should_override`: strictly greater importance wins;
at equal importance the (lexicographically) greater-or-equal specificity wins. -/
def StyleProperty.should_override (p other : StyleProperty) : Bool :=
  if p.important ≠ other.important then p.important
  else Specificity.leB other.specificity p.specificity

/-- Per-node computed style: the property map read pointwise. -/
def ComputedStyle : Type := PropertyId → Option StyleProperty

def ComputedStyle.new : ComputedStyle := fun _ => none

/-- `ComputedStyle::set`: keep the stored entry unless the new one overrides. -/
def ComputedStyle.set (cs : ComputedStyle) (prop : PropertyId) (v : StyleProperty) :
    ComputedStyle :=
  match cs prop with
  | some existing =>
    if v.should_override existing then (fun q => if q = prop then some v else cs q) else cs
  | none => fun q => if q = prop then some v else cs q

/-- `ComputedStyle::inherit_from`: copy the parent's inherited entries into the
missing slots. -/
def ComputedStyle.inherit_from (cs parent : ComputedStyle) : ComputedStyle :=
  fun p =>
    match cs p with
    | some v => some v
    | none => if p.is_inherited then parent p else none

/-- `ComputedStyle::apply_defaults`: default `display` by element type. -/
def ComputedStyle.apply_defaults (cs : ComputedStyle) (isBlock : Bool) : ComputedStyle :=
  if (cs .Display).isSome then cs
  else cs.set .Display ⟨if isBlock then "block" else "inline", ⟨0, 0, 0, 0⟩, false⟩

/-! ## Stylesheet parsing (src/css/parser.rs) -/

/-- `Color::from_name_exists`. -/
def color_from_name_exists (name : String) : Bool :=
  match strLower name with
  | "black" | "white" | "red" | "green" | "blue" | "transparent"
  | "yellow" | "orange" | "purple" | "pink" | "gray" | "grey" => true
  | _ => false

/-- `expand_shorthand`: CSS 1/2/3/4-value expansion for margin and padding,
plus the simple background-color special case. -/
def expand_shorthand (property : PropertyId) (value : String) :
    List (PropertyId × String) :=
  match property with
  | .Margin =>
    match wordsOf value with
    | [a] => [(.MarginTop, a), (.MarginRight, a), (.MarginBottom, a), (.MarginLeft, a)]
    | [a, b] => [(.MarginTop, a), (.MarginRight, b), (.MarginBottom, a), (.MarginLeft, b)]
    | [a, b, c] => [(.MarginTop, a), (.MarginRight, b), (.MarginBottom, c), (.MarginLeft, b)]
    | [a, b, c, d] => [(.MarginTop, a), (.MarginRight, b), (.MarginBottom, c), (.MarginLeft, d)]
    | _ => [(property, value)]
  | .Padding =>
    match wordsOf value with
    | [a] => [(.PaddingTop, a), (.PaddingRight, a), (.PaddingBottom, a), (.PaddingLeft, a)]
    | [a, b] => [(.PaddingTop, a), (.PaddingRight, b), (.PaddingBottom, a), (.PaddingLeft, b)]
    | [a, b, c] => [(.PaddingTop, a), (.PaddingRight, b), (.PaddingBottom, c), (.PaddingLeft, b)]
    | [a, b, c, d] => [(.PaddingTop, a), (.PaddingRight, b), (.PaddingBottom, c), (.PaddingLeft, d)]
    | _ => [(property, value)]
  | .Background =>
    if strStartsWith value "#" || strStartsWith value "rgb" || color_from_name_exists value then
      [(.BackgroundColor, value)]
    else [(property, value)]
  | _ => [(property, value)]

/-- `parse_declarations`: semicolon-separated `prop: value [!important]`. -/
def parse_declarations (content : String) : List StyleDeclaration :=
  (splitOnChar ';' content).foldl
    (fun acc declStr =>
      let declStr := strTrim declStr
      if declStr = "" then acc
      else
        match splitAtFirst ':' declStr.data with
        | none => acc
        | some nv =>
          let propertyName := strTrim (String.mk nv.1)
          let rawValue := strTrim (String.mk nv.2)
          let hasImp := strEndsWith (strLower rawValue) "!important"
          let value :=
            if hasImp then strTrim (String.mk (rawValue.data.take (rawValue.length - 10)))
            else rawValue
          let property := PropertyId.from_name propertyName
          acc ++ (expand_shorthand property value).map
            (fun pv => ⟨pv.1, pv.2, hasImp⟩))
    []

/-- `parse_rule`: comma-separated selectors; rule dropped when all selectors fail. -/
def parse_rule (selectorsStr declarationsStr : String) : Option StyleRule :=
  let selectors := (splitOnChar ',' selectorsStr).filterMap (fun s => Selector.parse (strTrim s))
  if selectors.isEmpty then none
  else some ⟨selectors, parse_declarations declarationsStr⟩

/-- Skip a CSS comment body up to and including the closing star-slash. -/
def skipComment : List Char → List Char
  | [] => []
  | '*' :: '/' :: rest => rest
  | _ :: rest => skipComment rest

/-- The state machine of `parse_stylesheet`; fuel `length + 1` is exact since
every iteration consumes at least one character. -/
def styleLoop : Nat → List Char → List Char → Bool → List Char → Int →
    List StyleRule → List StyleRule
  | _, [], _, _, _, _, rules => rules
  | 0, _ :: _, _, _, _, _, rules => rules
  | fuel + 1, c :: rest, curSel, inBlock, blockContent, depth, rules =>
    if c = '{' then
      if inBlock then styleLoop fuel rest curSel inBlock (blockContent ++ [c]) (depth + 1) rules
      else styleLoop fuel rest curSel true blockContent 1 rules
    else if c = '}' then
      if depth - 1 = 0 then
        let rules' :=
          match parse_rule (String.mk curSel) (String.mk blockContent) with
          | some r => rules ++ [r]
          | none => rules
        styleLoop fuel rest [] false [] (depth - 1) rules'
      else styleLoop fuel rest curSel inBlock (blockContent ++ [c]) (depth - 1) rules
    else if c = '/' ∧ rest.head? = some '*' then
      styleLoop fuel (skipComment rest.tail) curSel inBlock blockContent depth rules
    else if inBlock then styleLoop fuel rest curSel inBlock (blockContent ++ [c]) depth rules
    else styleLoop fuel rest (curSel ++ [c]) inBlock blockContent depth rules

/-- `parse_stylesheet`. -/
def parse_stylesheet (css : String) : List StyleRule :=
  let cs := (strTrim css).data
  styleLoop (cs.length + 1) cs [] false [] 0 []

/-! ## Cascade (src/css/context.rs) -/

/-- `is_block_element`. -/
def is_block_element (tag : String) : Bool :=
  match tag with
  | "html" | "body" | "div" | "p" | "h1" | "h2" | "h3" | "h4" | "h5" | "h6"
  | "ul" | "ol" | "li" | "table" | "tr" | "form" | "fieldset" | "article"
  | "aside" | "footer" | "header" | "nav" | "section" | "main" | "blockquote"
  | "pre" | "figure" | "figcaption" | "hr" => true
  | _ => false

structure StyleContext where
  ua_rules : List StyleRule
  author_rules : List StyleRule
  computed_cache : Nat → Option ComputedStyle

/-- `StyleContext::add_stylesheet`: append author rules, clear the cache. -/
def StyleContext.add_stylesheet (ctx : StyleContext) (css : String) : StyleContext :=
  { ctx with
    author_rules := ctx.author_rules ++ parse_stylesheet css
    computed_cache := fun _ => none }

/-- Declarations of one rule applied at one selector's specificity. -/
def applyDecls (spec : Specificity) (decls : List StyleDeclaration)
    (cs : ComputedStyle) : ComputedStyle :=
  decls.foldl (fun st d => st.set d.property ⟨d.value, spec, d.important⟩) cs

/-- `StyleContext::apply_matching_rule`. -/
def apply_matching_rule (doc : Document) (nid : Nat) (rule : StyleRule)
    (cs : ComputedStyle) : ComputedStyle :=
  rule.selectors.foldl
    (fun st sel =>
      if sel.matches doc nid then applyDecls sel.specificity rule.declarations st else st)
    cs

def applyRulesList (doc : Document) (nid : Nat) (rules : List StyleRule)
    (cs : ComputedStyle) : ComputedStyle :=
  rules.foldl (fun st r => apply_matching_rule doc nid r st) cs

/-- `StyleContext::apply_inline_styles` at specificity `(1,0,0,0)`. -/
def apply_inline_styles (inl : String) (cs : ComputedStyle) : ComputedStyle :=
  (splitOnChar ';' inl).foldl
    (fun st declStr =>
      let declStr := strTrim declStr
      match splitAtFirst ':' declStr.data with
      | some nv =>
        st.set (PropertyId.from_name (strTrim (String.mk nv.1)))
          ⟨(strTrim (String.mk nv.2)), ⟨1, 0, 0, 0⟩, false⟩
      | none => st)
    cs

/-- The per-node body of `compute_styles_recursive`: UA rules, author rules,
inline styles, inheritance, then type-based defaults. -/
def computeNodeStyle (doc : Document) (ua author : List StyleRule) (nid : Nat)
    (parentStyle : Option ComputedStyle) : ComputedStyle :=
  match doc.get_node nid with
  | some node =>
    if node.is_element then
      let s := applyRulesList doc nid ua ComputedStyle.new
      let s := applyRulesList doc nid author s
      let s :=
        match node.get_attribute "style" with
        | some inl => apply_inline_styles inl s
        | none => s
      let s :=
        match parentStyle with
        | some p => s.inherit_from p
        | none => s
      s.apply_defaults (((node.tag_name).map is_block_element).getD false)
    else ComputedStyle.new
  | none => ComputedStyle.new

/-- `compute_styles_recursive`: cache this node's style, recurse into children
threading the cache; fuel bounds the recursion depth. -/
def computeRec (doc : Document) (ua author : List StyleRule) :
    Nat → Nat → Option ComputedStyle → (Nat → Option ComputedStyle) →
    (Nat → Option ComputedStyle)
  | 0, _, _, cache => cache
  | fuel + 1, nid, parentStyle, cache =>
    let style := computeNodeStyle doc ua author nid parentStyle
    let cache1 := fun i => if i = nid then some style else cache i
    let kids := ((doc.get_node nid).map (fun n => n.children)).getD []
    kids.foldl (fun c cid => computeRec doc ua author fuel cid (some style) c) cache1

/-- `StyleContext::apply_styles`: clear the cache, append each style element's
parsed text to the author rules, then recompute every node's style. -/
def StyleContext.apply_styles (ctx : StyleContext) (fuel : Nat) (doc : Document) :
    StyleContext :=
  let ctx1 : StyleContext := { ctx with computed_cache := fun _ => none }
  let styleIds := doc.get_elements_by_tag_name fuel "style"
  let ctx2 := styleIds.foldl
    (fun c sid => c.add_stylesheet (doc.get_text_content fuel sid)) ctx1
  { ctx2 with
    computed_cache :=
      computeRec doc ctx2.ua_rules ctx2.author_rules fuel doc.root none ctx2.computed_cache }

def StyleContext.get_computed_style (ctx : StyleContext) (nid : Nat) :
    Option ComputedStyle :=
  ctx.computed_cache nid

/-! ## Box model (src/layout/box_model.rs), geometry over ℚ -/

structure Rect where
  x : ℚ
  y : ℚ
  width : ℚ
  height : ℚ
deriving DecidableEq

def Rect.expand (r : Rect) (top right bottom left : ℚ) : Rect :=
  ⟨r.x - left, r.y - top, r.width + left + right, r.height + top + bottom⟩

def Rect.rightEdge (r : Rect) : ℚ := r.x + r.width

def Rect.bottomEdge (r : Rect) : ℚ := r.y + r.height

structure EdgeSizes where
  top : ℚ
  right : ℚ
  bottom : ℚ
  left : ℚ
deriving DecidableEq

def EdgeSizes.zero : EdgeSizes := ⟨0, 0, 0, 0⟩

def EdgeSizes.horizontal (e : EdgeSizes) : ℚ := e.left + e.right

def EdgeSizes.vertical (e : EdgeSizes) : ℚ := e.top + e.bottom

structure Dimensions where
  content : Rect
  padding : EdgeSizes
  border : EdgeSizes
  margin : EdgeSizes
deriving DecidableEq

def Dimensions.padding_box (d : Dimensions) : Rect :=
  d.content.expand d.padding.top d.padding.right d.padding.bottom d.padding.left

def Dimensions.border_box (d : Dimensions) : Rect :=
  (d.padding_box).expand d.border.top d.border.right d.border.bottom d.border.left

def Dimensions.margin_box (d : Dimensions) : Rect :=
  (d.border_box).expand d.margin.top d.margin.right d.margin.bottom d.margin.left

def Dimensions.total_width (d : Dimensions) : ℚ :=
  d.content.width + d.padding.horizontal + d.border.horizontal + d.margin.horizontal

def Dimensions.total_height (d : Dimensions) : ℚ :=
  d.content.height + d.padding.vertical + d.border.vertical + d.margin.vertical

inductive BoxType
  | block
  | inline
  | inlineBlock
  | anonymous
  | text
deriving DecidableEq

/-! ## Layout tree and block layout (src/layout/tree.rs) -/

structure LayoutNode where
  id : Nat
  dom_node : Option Nat
  box_type : BoxType
  dimensions : Dimensions
  children : List Nat
  parent : Option Nat
  text : Option String

structure LayoutTree where
  nodes : List LayoutNode
  root : Nat
  viewport : ℚ × ℚ

def LayoutTree.get_node (t : LayoutTree) (id : Nat) : Option LayoutNode :=
  t.nodes.get? id

def LayoutTree.modifyNode (t : LayoutTree) (i : Nat) (f : LayoutNode → LayoutNode) :
    LayoutTree :=
  { t with nodes := listModify t.nodes i f }

/-- The containing width consulted by `calculate_block_width`: the parent's
content width, or the viewport width at the root. -/
def parentWidth (t : LayoutTree) (id : Nat) : ℚ :=
  ((((t.get_node id).bind (fun n => n.parent)).bind (fun p => t.get_node p)).map
    (fun p => p.dimensions.content.width)).getD t.viewport.1

/-- The per-node width rule of `calculate_block_width`: a zero ("auto")
content width is filled to the containing width minus this box's own
horizontal margin, padding and border extents; a non-zero width is left
unchanged.  There is no clamping here. -/
def widthResolve (pw : ℚ) (n : LayoutNode) : LayoutNode :=
  if n.dimensions.content.width = 0 then
    { n with dimensions.content.width :=
        pw - n.dimensions.margin.horizontal
          - n.dimensions.padding.horizontal - n.dimensions.border.horizontal }
  else n

/-- `LayoutTree::calculate_block_width`. -/
def calculate_block_width (t : LayoutTree) (id : Nat) : LayoutTree :=
  t.modifyNode id (widthResolve (parentWidth t id))

/-- The maximum margin-box bottom edge among a node's children
(`calculate_block_height`, first half). -/
def maxBottom (t : LayoutTree) (id : Nat) : ℚ :=
  (((t.get_node id).map (fun n => n.children)).getD []).foldl
    (fun mb cid =>
      match t.get_node cid with
      | some c => max mb c.dimensions.margin_box.bottomEdge
      | none => mb)
    0

/-- The per-node height rule of `calculate_block_height`: a zero ("auto")
content height becomes the children's maximum margin-box bottom minus this
box's content y and vertical padding, clamped to be non-negative. -/
def heightResolve (mb : ℚ) (n : LayoutNode) : LayoutNode :=
  if n.dimensions.content.height = 0 then
    let h := mb - n.dimensions.content.y - n.dimensions.padding.vertical
    { n with dimensions.content.height := if h < 0 then 0 else h }
  else n

/-- `LayoutTree::calculate_block_height`. -/
def calculate_block_height (t : LayoutTree) (id : Nat) : LayoutTree :=
  t.modifyNode id (heightResolve (maxBottom t id))

/-- Normal-flow position of a block-level child (`layout_block_children`):
content x at the start x plus the child's left margin, content y at the
cursor plus the child's top margin. -/
def posBlock (startX cursorY : ℚ) (c : LayoutNode) : LayoutNode :=
  { c with
    dimensions.content.x := startX + c.dimensions.margin.left
    dimensions.content.y := cursorY + c.dimensions.margin.top }

/-- One iteration of the child loop in `layout_block_children`: block and
inline-block children are positioned at the cursor plus their top margin,
recursively laid out, and advance the cursor by their total (margin-box)
height; inline/text children are placed at the cursor with a fixed 20px
line height; anonymous boxes are skipped. -/
def childStep (recur : LayoutTree → Nat → LayoutTree) (startX : ℚ)
    (acc : LayoutTree × ℚ) (cid : Nat) : LayoutTree × ℚ :=
  let t := acc.1
  let cursorY := acc.2
  let ctype := ((t.get_node cid).map (fun n => n.box_type)).getD .block
  match ctype with
  | .block | .inlineBlock =>
    let t := t.modifyNode cid (posBlock startX cursorY)
    let t := recur t cid
    let cursorY := cursorY +
      (((t.get_node cid).map (fun c => c.dimensions.total_height)).getD 0)
    (t, cursorY)
  | .inline | .text =>
    let hasText := ((t.get_node cid).map (fun c => c.text.isSome)).getD false
    let t := t.modifyNode cid (fun c =>
      let c := { c with
        dimensions.content.x := startX
        dimensions.content.y := cursorY }
      if c.text.isSome then { c with dimensions.content.height := 20 } else c)
    (t, if hasText then cursorY + 20 else cursorY)
  | .anonymous => (t, cursorY)

/-- `LayoutTree::layout_block_children`, parameterized by the recursive
block-layout call: children are read once and the cursor starts at the
content origin shifted inward by the top/left padding. -/
def layout_block_children (recur : LayoutTree → Nat → LayoutTree)
    (t : LayoutTree) (id : Nat) : LayoutTree :=
  match t.get_node id with
  | none => t
  | some node =>
    (node.children.foldl
      (childStep recur (node.dimensions.content.x + node.dimensions.padding.left))
      (t, node.dimensions.content.y + node.dimensions.padding.top)).1

/-- `LayoutTree::layout_block`: width, then children, then height.  Fuel
bounds the recursion depth; any fuel of at least the tree depth is exact. -/
def layout_block : Nat → LayoutTree → Nat → LayoutTree
  | 0, t, _ => t
  | fuel + 1, t, id =>
    let t1 := calculate_block_width t id
    let t2 := layout_block_children (layout_block fuel) t1 id
    calculate_block_height t2 id

/-- `LayoutTree::layout`: root sized to the viewport, then block layout. -/
def LayoutTree.layout (fuel : Nat) (t : LayoutTree) : LayoutTree :=
  let t1 := t.modifyNode t.root (fun r =>
    { r with
      dimensions.content.width := t.viewport.1
      dimensions.content.x := 0
      dimensions.content.y := 0 })
  layout_block fuel t1 t.root

/-! ## Inline layout (src/layout/inline.rs) -/

inductive InlineFragmentType
  | text
  | inlineElement
  | inlineBlock
  | image
deriving DecidableEq

structure InlineFragment where
  layout_id : Nat
  bounds : Rect
  text : Option String
  fragment_type : InlineFragmentType
deriving DecidableEq

structure LineBox where
  bounds : Rect
  fragments : List InlineFragment
  baseline : ℚ
deriving DecidableEq

def LineBox.mkNew (y width : ℚ) : LineBox := ⟨⟨0, y, width, 0⟩, [], 0⟩

/-- `LineBox::add_fragment`: grow the line height to the fragment's height. -/
def LineBox.add_fragment (lb : LineBox) (f : InlineFragment) : LineBox :=
  { lb with
    bounds.height := max lb.bounds.height f.bounds.height
    fragments := lb.fragments ++ [f] }

def LineBox.remaining_width (lb : LineBox) : ℚ :=
  lb.bounds.width - lb.fragments.foldl (fun acc f => acc + f.bounds.width) 0

structure InlineContext where
  width : ℚ
  lines : List LineBox
  current_line : Nat
  cursor_x : ℚ
  start_y : ℚ
deriving DecidableEq

/-- `InlineContext::new_line`. -/
def InlineContext.new_line (ctx : InlineContext) : InlineContext :=
  let y :=
    match ctx.lines.getLast? with
    | some last => last.bounds.y + last.bounds.height
    | none => ctx.start_y
  { ctx with
    lines := ctx.lines ++ [LineBox.mkNew y ctx.width]
    current_line := ctx.lines.length
    cursor_x := 0 }

/-- `InlineContext::new`. -/
def InlineContext.mkNew (width start_y : ℚ) : InlineContext :=
  InlineContext.new_line ⟨width, [], 0, 0, start_y⟩

/-- One iteration of the word loop in `InlineContext::add_text`. -/
def InlineContext.addWord (lid : Nat) (fs : ℚ) (ctx : InlineContext)
    (word : String) : InlineContext :=
  let char_width := fs * (3 / 5)
  let line_height := fs * (6 / 5)
  let word_width := (word.length : ℚ) * char_width
  let ctx :=
    if ctx.cursor_x + word_width > ctx.width ∧ ctx.cursor_x > 0 then ctx.new_line else ctx
  let frag : InlineFragment :=
    ⟨lid, ⟨ctx.cursor_x, 0, word_width, line_height⟩, some word, .text⟩
  let ctx :=
    { ctx with lines := listModify ctx.lines ctx.current_line (fun l => l.add_fragment frag) }
  { ctx with cursor_x := ctx.cursor_x + word_width + char_width }

/-- `InlineContext::add_text`: split on whitespace, place word by word. -/
def InlineContext.add_text (ctx : InlineContext) (lid : Nat) (text : String)
    (fs : ℚ) : InlineContext :=
  (wordsOf text).foldl (InlineContext.addWord lid fs) ctx

def InlineContext.total_height (ctx : InlineContext) : ℚ :=
  ctx.lines.foldl (fun acc l => acc + l.bounds.height) 0

/-! ## Order lemmas for specificity and cascade entries -/

theorem Specificity.leB_refl (s : Specificity) : Specificity.leB s s = true := by
  simp [Specificity.leB]

theorem Specificity.leB_total (s t : Specificity) :
    Specificity.leB s t = true ∨ Specificity.leB t s = true := by
  simp only [Specificity.leB, decide_eq_true_eq]
  omega

theorem Specificity.leB_antisymm (s t : Specificity)
    (h1 : Specificity.leB s t = true) (h2 : Specificity.leB t s = true) : s = t := by
  cases s; cases t
  simp only [Specificity.leB, decide_eq_true_eq] at h1 h2
  simp only [Specificity.mk.injEq]
  omega

theorem Specificity.leB_trans (s t u : Specificity)
    (h1 : Specificity.leB s t = true) (h2 : Specificity.leB t u = true) :
    Specificity.leB s u = true := by
  simp only [Specificity.leB, decide_eq_true_eq] at h1 h2 ⊢
  omega

/-- The cascade preorder on entries: importance first, then specificity. -/
def levLe (a b : StyleProperty) : Prop :=
  (a.important = false ∧ b.important = true) ∨
    (a.important = b.important ∧ Specificity.leB a.specificity b.specificity = true)

/-- Entries at the same cascade level. -/
def levEq (a b : StyleProperty) : Prop :=
  a.important = b.important ∧ a.specificity = b.specificity

theorem should_override_iff (p q : StyleProperty) :
    p.should_override q = true ↔ levLe q p := by
  cases hp : p.important <;> cases hq : q.important <;>
    simp [StyleProperty.should_override, levLe, hp, hq]

theorem levLe_refl (a : StyleProperty) : levLe a a :=
  Or.inr ⟨rfl, Specificity.leB_refl _⟩

theorem levLe_total (a b : StyleProperty) : levLe a b ∨ levLe b a := by
  cases ha : a.important <;> cases hb : b.important
  · rcases Specificity.leB_total a.specificity b.specificity with h | h
    · exact Or.inl (Or.inr ⟨ha.trans hb.symm, h⟩)
    · exact Or.inr (Or.inr ⟨hb.trans ha.symm, h⟩)
  · exact Or.inl (Or.inl ⟨ha, hb⟩)
  · exact Or.inr (Or.inl ⟨hb, ha⟩)
  · rcases Specificity.leB_total a.specificity b.specificity with h | h
    · exact Or.inl (Or.inr ⟨ha.trans hb.symm, h⟩)
    · exact Or.inr (Or.inr ⟨hb.trans ha.symm, h⟩)

theorem levLe_trans (a b c : StyleProperty) (h1 : levLe a b) (h2 : levLe b c) :
    levLe a c := by
  rcases h1 with ⟨h1a, h1b⟩ | ⟨h1a, h1b⟩ <;> rcases h2 with ⟨h2a, h2b⟩ | ⟨h2a, h2b⟩
  · rw [h1b] at h2a; simp at h2a
  · rw [h2a] at h1b; exact Or.inl ⟨h1a, h1b⟩
  · exact Or.inl ⟨h1a.trans h2a, h2b⟩
  · exact Or.inr ⟨h1a.trans h2a, Specificity.leB_trans _ _ _ h1b h2b⟩

theorem levLe_antisymm (a b : StyleProperty) (h1 : levLe a b) (h2 : levLe b a) :
    levEq a b := by
  rcases h1 with ⟨h1a, h1b⟩ | ⟨h1a, h1b⟩ <;> rcases h2 with ⟨h2a, h2b⟩ | ⟨h2a, h2b⟩
  · rw [h1b] at h2a; simp at h2a
  · rw [h2a, h1a] at h1b; simp at h1b
  · rw [h1a, h2a] at h2b; simp at h2b
  · exact ⟨h1a, Specificity.leB_antisymm _ _ h1b h2b⟩

theorem not_override_levLe (p q : StyleProperty) (h : p.should_override q = false) :
    levLe p q ∧ ¬ levEq p q := by
  have hno : ¬ levLe q p := by
    intro hc
    rw [(should_override_iff p q).mpr hc] at h
    cases h
  constructor
  · rcases levLe_total p q with hle | hle
    · exact hle
    · exact absurd hle hno
  · intro ⟨he1, he2⟩
    exact hno (Or.inr ⟨he1.symm, he2 ▸ Specificity.leB_refl _⟩)

/-- Pointwise effect of one `ComputedStyle::set` on a single property slot. -/
def ostep (o : Option StyleProperty) (v : StyleProperty) : StyleProperty :=
  match o with
  | none => v
  | some e => if v.should_override e then v else e

theorem ComputedStyle.set_apply (cs : ComputedStyle) (prop : PropertyId)
    (v : StyleProperty) (q : PropertyId) :
    (cs.set prop v) q = if q = prop then some (ostep (cs prop) v) else cs q := by
  unfold ComputedStyle.set ostep
  cases h : cs prop with
  | none => simp
  | some e =>
    by_cases hov : v.should_override e = true
    · simp [hov]
    · simp only [Bool.not_eq_true] at hov
      simp only [hov, Bool.false_eq_true, if_false]
      split
      · next heq => rw [heq, h]
      · rfl

theorem levLe_ostep (o : Option StyleProperty) (v : StyleProperty) :
    levLe v (ostep o v) := by
  cases o with
  | none => exact levLe_refl v
  | some e =>
    unfold ostep
    by_cases hov : v.should_override e = true
    · simp [hov, levLe_refl]
    · simp only [Bool.not_eq_true] at hov
      simp only [hov, Bool.false_eq_true, if_false]
      exact (not_override_levLe v e hov).1

theorem levLe_ostep_some (e : StyleProperty) (v : StyleProperty) :
    levLe e (ostep (some e) v) := by
  unfold ostep
  by_cases hov : v.should_override e = true
  · simp only [hov, if_true]
    exact (should_override_iff v e).mp hov
  · simp only [Bool.not_eq_true] at hov
    simp only [hov, Bool.false_eq_true, if_false]
    exact levLe_refl e

/-- Folding a list of candidate entries into one slot, the per-property view of
successive `ComputedStyle::set` calls. -/
def oapply : Option StyleProperty → List StyleProperty → Option StyleProperty
  | o, [] => o
  | o, v :: t => oapply (some (ostep o v)) t

theorem oapply_append (o : Option StyleProperty) (l1 l2 : List StyleProperty) :
    oapply o (l1 ++ l2) = oapply (oapply o l1) l2 := by
  induction l1 generalizing o with
  | nil => rfl
  | cons v t ih => simp [oapply, ih]

theorem oapply_some (t : List StyleProperty) (a : StyleProperty) :
    ∃ w, oapply (some a) t = some w ∧ levLe a w ∧ ∀ v ∈ t, levLe v w := by
  induction t generalizing a with
  | nil => exact ⟨a, rfl, levLe_refl a, by simp⟩
  | cons v t ih =>
    obtain ⟨w, hw, haw, hall⟩ := ih (ostep (some a) v)
    refine ⟨w, hw, levLe_trans _ _ _ (levLe_ostep_some a v) haw, ?_⟩
    intro u hu
    rcases List.mem_cons.mp hu with rfl | hu
    · exact levLe_trans _ _ _ (levLe_ostep (some a) u) haw
    · exact hall u hu

theorem oapply_levEq (t : List StyleProperty) (a b : StyleProperty)
    (h : levEq a b) :
    oapply (some a) t = oapply (some b) t ∨
      (oapply (some a) t = some a ∧ oapply (some b) t = some b) := by
  induction t generalizing a b with
  | nil => exact Or.inr ⟨rfl, rfl⟩
  | cons v t ih =>
    have hov : v.should_override a = v.should_override b := by
      unfold StyleProperty.should_override
      rw [h.1, h.2]
    by_cases hv : v.should_override a = true
    · left
      simp [oapply, ostep, hv, hov ▸ hv]
    · simp only [Bool.not_eq_true] at hv
      have hv' : v.should_override b = false := hov ▸ hv
      simp only [oapply, ostep, hv, hv', Bool.false_eq_true, if_false]
      exact ih a b h

theorem oapply_idem (t : List StyleProperty) (o : Option StyleProperty) :
    oapply (oapply o t) t = oapply o t := by
  induction t generalizing o with
  | nil => rfl
  | cons v t ih =>
    obtain ⟨w, hw, hxw, _⟩ := oapply_some t (ostep o v)
    have hkey : oapply (some w) t = some w := by
      conv_lhs => rw [← hw, ih]
      exact hw
    have hrhs : oapply o (v :: t) = some w := by
      simpa [oapply] using hw
    rw [hrhs]
    show oapply (some (ostep (some w) v)) t = some w
    by_cases hov : v.should_override w = true
    · have hwv : levLe w v := (should_override_iff v w).mp hov
      have hvw : levLe v w := levLe_trans _ _ _ (levLe_ostep o v) hxw
      have heq : levEq v w := levLe_antisymm v w hvw hwv
      simp only [ostep, hov, if_true]
      rcases oapply_levEq t v w heq with hcase | ⟨hv1, _⟩
      · rw [hcase, hkey]
      · rw [hv1]
        cases o with
        | none =>
          have : oapply (some v) t = some w := hw
          rw [hv1] at this
          exact this
        | some e =>
          by_cases hove : v.should_override e = true
          · have : oapply (some v) t = some w := by
              simpa [ostep, hove] using hw
            rw [hv1] at this
            exact this
          · simp only [Bool.not_eq_true] at hove
            have hew : levLe e w := by
              have := hxw
              simpa [ostep, hove] using this
            have hwv : levLe w v := Or.inr ⟨heq.1.symm, by rw [← heq.2]; exact Specificity.leB_refl _⟩
            have hev : levLe e v := levLe_trans _ _ _ hew hwv
            exact absurd ((should_override_iff v e).mpr hev) (by simp [hove])
    · simp only [Bool.not_eq_true] at hov
      simp only [ostep, hov, Bool.false_eq_true, if_false]
      exact hkey

/-! ## Lifting the slot-level fold to rule application -/

def setPairs (cs : ComputedStyle) (L : List (PropertyId × StyleProperty)) : ComputedStyle :=
  L.foldl (fun s pv => s.set pv.1 pv.2) cs

def valsAt (p : PropertyId) (L : List (PropertyId × StyleProperty)) :
    List StyleProperty :=
  L.filterMap (fun pv => if pv.1 = p then some pv.2 else none)

theorem setPairs_append (cs : ComputedStyle) (L1 L2 : List (PropertyId × StyleProperty)) :
    setPairs cs (L1 ++ L2) = setPairs (setPairs cs L1) L2 := by
  simp [setPairs, List.foldl_append]

theorem valsAt_append (p : PropertyId) (L1 L2 : List (PropertyId × StyleProperty)) :
    valsAt p (L1 ++ L2) = valsAt p L1 ++ valsAt p L2 := by
  simp [valsAt, List.filterMap_append]

theorem setPairs_apply (L : List (PropertyId × StyleProperty)) (cs : ComputedStyle)
    (p : PropertyId) : setPairs cs L p = oapply (cs p) (valsAt p L) := by
  induction L generalizing cs with
  | nil => rfl
  | cons qv t ih =>
    have hstep : setPairs cs (qv :: t) = setPairs (cs.set qv.1 qv.2) t := rfl
    rw [hstep, ih]
    by_cases h : qv.1 = p
    · subst h
      rw [ComputedStyle.set_apply]
      simp [valsAt, oapply]
    · rw [ComputedStyle.set_apply]
      have h' : ¬ (p = qv.1) := fun heq => h heq.symm
      simp [valsAt, h, h']

/-- The declarations one selector of a rule contributes to one node. -/
def selDecls (doc : Document) (nid : Nat) (r : StyleRule) (sel : Selector) :
    List (PropertyId × StyleProperty) :=
  if sel.matches doc nid then
    r.declarations.map (fun d => (d.property, ⟨d.value, sel.specificity, d.important⟩))
  else []

def ruleDecls (doc : Document) (nid : Nat) (r : StyleRule) :
    List (PropertyId × StyleProperty) :=
  (r.selectors.map (selDecls doc nid r)).flatten

def rulesDecls (doc : Document) (nid : Nat) (rules : List StyleRule) :
    List (PropertyId × StyleProperty) :=
  (rules.map (ruleDecls doc nid)).flatten

theorem applyDecls_eq (spec : Specificity) (decls : List StyleDeclaration)
    (cs : ComputedStyle) :
    applyDecls spec decls cs =
      setPairs cs (decls.map (fun d => (d.property, ⟨d.value, spec, d.important⟩))) := by
  simp [applyDecls, setPairs, List.foldl_map]

theorem apply_matching_rule_eq (doc : Document) (nid : Nat) (r : StyleRule)
    (cs : ComputedStyle) :
    apply_matching_rule doc nid r cs = setPairs cs (ruleDecls doc nid r) := by
  unfold apply_matching_rule ruleDecls
  generalize r.selectors = l
  induction l generalizing cs with
  | nil => rfl
  | cons sel t ih =>
    rw [List.foldl_cons, ih, List.map_cons, List.flatten_cons, setPairs_append]
    by_cases hm : sel.matches doc nid = true
    · simp [hm, selDecls, applyDecls_eq]
    · simp only [Bool.not_eq_true] at hm
      simp [hm, selDecls, setPairs]

theorem applyRulesList_eq (doc : Document) (nid : Nat) (rules : List StyleRule)
    (cs : ComputedStyle) :
    applyRulesList doc nid rules cs = setPairs cs (rulesDecls doc nid rules) := by
  unfold applyRulesList rulesDecls
  induction rules generalizing cs with
  | nil => rfl
  | cons r t ih =>
    rw [List.foldl_cons, ih, List.map_cons, List.flatten_cons, setPairs_append,
      apply_matching_rule_eq]

theorem rulesDecls_append (doc : Document) (nid : Nat) (r1 r2 : List StyleRule) :
    rulesDecls doc nid (r1 ++ r2) = rulesDecls doc nid r1 ++ rulesDecls doc nid r2 := by
  simp [rulesDecls, List.map_append, List.flatten_append]

/-- Re-applying a suffix of the author rules is a no-op: the heart of the
idempotence of the cascade. -/
theorem applyRulesList_redo (doc : Document) (nid : Nat) (T S : List StyleRule)
    (cs : ComputedStyle) :
    applyRulesList doc nid S (applyRulesList doc nid (T ++ S) cs) =
      applyRulesList doc nid (T ++ S) cs := by
  funext p
  rw [applyRulesList_eq doc nid S, setPairs_apply, applyRulesList_eq doc nid (T ++ S),
    setPairs_apply, rulesDecls_append, valsAt_append, oapply_append]
  exact oapply_idem _ _

theorem applyRulesList_append (doc : Document) (nid : Nat) (X Y : List StyleRule)
    (cs : ComputedStyle) :
    applyRulesList doc nid (X ++ Y) cs =
      applyRulesList doc nid Y (applyRulesList doc nid X cs) := by
  simp [applyRulesList, List.foldl_append]

/-- Duplicating a suffix of the author rules leaves every per-node style
computation unchanged. -/
theorem computeNodeStyle_dup (doc : Document) (ua A S : List StyleRule) (nid : Nat)
    (ps : Option ComputedStyle) :
    computeNodeStyle doc ua ((A ++ S) ++ S) nid ps =
      computeNodeStyle doc ua (A ++ S) nid ps := by
  unfold computeNodeStyle
  simp only [applyRulesList_append doc nid (A ++ S) S, applyRulesList_redo doc nid A S]

theorem foldl_congr_fn {α β : Type _} (l : List α) (f g : β → α → β) (b : β)
    (h : ∀ acc x, f acc x = g acc x) : l.foldl f b = l.foldl g b := by
  induction l generalizing b with
  | nil => rfl
  | cons x t ih => rw [List.foldl_cons, List.foldl_cons, h, ih]

/-- Duplicating a suffix of the author rules leaves the whole recursive style
pass unchanged, for any fuel. -/
theorem computeRec_dup (doc : Document) (ua A S : List StyleRule) :
    ∀ (fuel : Nat) (nid : Nat) (ps : Option ComputedStyle)
      (cache : Nat → Option ComputedStyle),
      computeRec doc ua ((A ++ S) ++ S) fuel nid ps cache =
        computeRec doc ua (A ++ S) fuel nid ps cache := by
  intro fuel
  induction fuel with
  | zero => intro nid ps cache; rfl
  | succ fuel ih =>
    intro nid ps cache
    show (((doc.get_node nid).map (fun n => n.children)).getD []).foldl
        (fun c cid => computeRec doc ua ((A ++ S) ++ S) fuel cid
          (some (computeNodeStyle doc ua ((A ++ S) ++ S) nid ps)) c)
        (fun i => if i = nid
          then some (computeNodeStyle doc ua ((A ++ S) ++ S) nid ps) else cache i) =
      (((doc.get_node nid).map (fun n => n.children)).getD []).foldl
        (fun c cid => computeRec doc ua (A ++ S) fuel cid
          (some (computeNodeStyle doc ua (A ++ S) nid ps)) c)
        (fun i => if i = nid
          then some (computeNodeStyle doc ua (A ++ S) nid ps) else cache i)
    rw [computeNodeStyle_dup]
    exact foldl_congr_fn _ _ _ _ (fun acc x => ih x _ acc)

/-- The author rules contributed by the document's style elements. -/
def sheetRules (fuel : Nat) (doc : Document) : List StyleRule :=
  ((doc.get_elements_by_tag_name fuel "style").map
    (fun sid => parse_stylesheet (doc.get_text_content fuel sid))).flatten

theorem fold_sheets (doc : Document) (fuel : Nat) (ids : List Nat) :
    ∀ (ctx : StyleContext), ctx.computed_cache = (fun _ => none) →
      (ids.foldl (fun c sid => c.add_stylesheet (doc.get_text_content fuel sid)) ctx).ua_rules
          = ctx.ua_rules ∧
      (ids.foldl (fun c sid => c.add_stylesheet (doc.get_text_content fuel sid)) ctx).author_rules
          = ctx.author_rules ++
            (ids.map (fun sid => parse_stylesheet (doc.get_text_content fuel sid))).flatten ∧
      (ids.foldl (fun c sid => c.add_stylesheet (doc.get_text_content fuel sid)) ctx).computed_cache
          = (fun _ => none) := by
  induction ids with
  | nil => intro ctx hc; exact ⟨rfl, by simp, hc⟩
  | cons sid t ih =>
    intro ctx hc
    obtain ⟨h1, h2, h3⟩ := ih (ctx.add_stylesheet (doc.get_text_content fuel sid)) rfl
    refine ⟨h1, ?_, h3⟩
    rw [List.foldl_cons, h2]
    simp [StyleContext.add_stylesheet, List.append_assoc]

/-- Field-level characterisation of one `apply_styles` run. -/
theorem apply_styles_fields (ctx : StyleContext) (fuel : Nat) (doc : Document) :
    (ctx.apply_styles fuel doc).ua_rules = ctx.ua_rules ∧
    (ctx.apply_styles fuel doc).author_rules = ctx.author_rules ++ sheetRules fuel doc ∧
    (ctx.apply_styles fuel doc).computed_cache =
      computeRec doc ctx.ua_rules (ctx.author_rules ++ sheetRules fuel doc)
        fuel doc.root none (fun _ => none) := by
  obtain ⟨h1, h2, h3⟩ := fold_sheets doc fuel (doc.get_elements_by_tag_name fuel "style")
    { ctx with computed_cache := fun _ => none } rfl
  refine ⟨h1, ?_, ?_⟩
  · rw [StyleContext.apply_styles] at *
    exact h2.trans (by rfl)
  · show computeRec doc _ _ fuel doc.root none _ = _
    rw [h1, h2, h3]
    rfl

/-! ## Claim C4: idempotence of apply_styles -/

/-- C4: a second `apply_styles` run on an unchanged document with unchanged
stylesheets produces, for every node and every property, the same computed
(value, specificity, importance) entry as the first run, even though the
second run appends the document's style-element rules to the author list
again. -/
theorem c4_apply_styles_idempotent (fuel : Nat) (ctx : StyleContext)
    (doc : Document) (n : Nat) (p : PropertyId) :
    ((((ctx.apply_styles fuel doc).apply_styles fuel doc).computed_cache n).bind
        (fun s => s p)) =
      (((ctx.apply_styles fuel doc).computed_cache n).bind (fun s => s p)) := by
  obtain ⟨hu1, ha1, hc1⟩ := apply_styles_fields ctx fuel doc
  obtain ⟨hu2, ha2, hc2⟩ := apply_styles_fields (ctx.apply_styles fuel doc) fuel doc
  rw [hc2, hu1, ha1, hc1, computeRec_dup]

/-! ## Claim C2: cascade conflict resolution -/

/-- C2: for two declarations competing for the same property slot, an
important entry overrides a stored non-important one regardless of
specificity and is never displaced by a later non-important one; at equal
importance, strictly higher specificity wins in both directions; at equal
importance and specificity the later-applied entry wins. -/
theorem c2_cascade_conflict (cs : ComputedStyle) (prop : PropertyId)
    (vNew vOld : StyleProperty) (h : cs prop = some vOld) :
    (vNew.important = true → vOld.important = false →
      (cs.set prop vNew) prop = some vNew) ∧
    (vNew.important = false → vOld.important = true →
      (cs.set prop vNew) prop = some vOld) ∧
    (vNew.important = vOld.important →
      Specificity.leB vNew.specificity vOld.specificity = false →
      (cs.set prop vNew) prop = some vNew) ∧
    (vNew.important = vOld.important →
      Specificity.leB vOld.specificity vNew.specificity = false →
      (cs.set prop vNew) prop = some vOld) ∧
    (vNew.important = vOld.important → vNew.specificity = vOld.specificity →
      (cs.set prop vNew) prop = some vNew) := by
  have happ : (cs.set prop vNew) prop = some (ostep (some vOld) vNew) := by
    rw [ComputedStyle.set_apply, if_pos rfl, h]
  refine ⟨?_, ?_, ?_, ?_, ?_⟩
  · intro h1 h2
    rw [happ]
    simp [ostep, StyleProperty.should_override, h1, h2]
  · intro h1 h2
    rw [happ]
    simp [ostep, StyleProperty.should_override, h1, h2]
  · intro h1 h2
    rw [happ]
    have : Specificity.leB vOld.specificity vNew.specificity = true := by
      rcases Specificity.leB_total vOld.specificity vNew.specificity with ht | ht
      · exact ht
      · rw [ht] at h2; cases h2
    simp [ostep, StyleProperty.should_override, h1, this]
  · intro h1 h2
    rw [happ]
    simp [ostep, StyleProperty.should_override, h1, h2]
  · intro h1 h2
    rw [happ]
    simp [ostep, StyleProperty.should_override, h1, h2, Specificity.leB_refl]

/-- A concrete stored style: non-important `blue` at class-level specificity. -/
def c2wStyle : ComputedStyle := fun q =>
  if q = PropertyId.Color then some ⟨"blue", ⟨0, 0, 1, 0⟩, false⟩ else none

/-- Witness for C2 at a concrete input: an important, lower-specificity `red`
replaces a stored non-important, higher-specificity `blue`. -/
theorem c2_cascade_conflict_witness :
    c2wStyle.set PropertyId.Color ⟨"red", ⟨0, 0, 0, 0⟩, true⟩ PropertyId.Color =
      some ⟨"red", ⟨0, 0, 0, 0⟩, true⟩ :=
  (c2_cascade_conflict c2wStyle PropertyId.Color ⟨"red", ⟨0, 0, 0, 0⟩, true⟩
    ⟨"blue", ⟨0, 0, 1, 0⟩, false⟩ rfl).1 rfl rfl

/-! ## Claim C7: shorthand expansion -/

/-- C7: a `margin`/`padding` shorthand whose value splits into 1, 2, 3 or 4
whitespace-separated parts expands to the four longhands (top, right,
bottom, left) following the CSS rule. -/
theorem c7_shorthand_expansion (v : String) :
    (∀ a, wordsOf v = [a] →
      expand_shorthand .Margin v =
        [(.MarginTop, a), (.MarginRight, a), (.MarginBottom, a), (.MarginLeft, a)] ∧
      expand_shorthand .Padding v =
        [(.PaddingTop, a), (.PaddingRight, a), (.PaddingBottom, a), (.PaddingLeft, a)]) ∧
    (∀ a b, wordsOf v = [a, b] →
      expand_shorthand .Margin v =
        [(.MarginTop, a), (.MarginRight, b), (.MarginBottom, a), (.MarginLeft, b)] ∧
      expand_shorthand .Padding v =
        [(.PaddingTop, a), (.PaddingRight, b), (.PaddingBottom, a), (.PaddingLeft, b)]) ∧
    (∀ a b c, wordsOf v = [a, b, c] →
      expand_shorthand .Margin v =
        [(.MarginTop, a), (.MarginRight, b), (.MarginBottom, c), (.MarginLeft, b)] ∧
      expand_shorthand .Padding v =
        [(.PaddingTop, a), (.PaddingRight, b), (.PaddingBottom, c), (.PaddingLeft, b)]) ∧
    (∀ a b c d, wordsOf v = [a, b, c, d] →
      expand_shorthand .Margin v =
        [(.MarginTop, a), (.MarginRight, b), (.MarginBottom, c), (.MarginLeft, d)] ∧
      expand_shorthand .Padding v =
        [(.PaddingTop, a), (.PaddingRight, b), (.PaddingBottom, c), (.PaddingLeft, d)]) := by
  refine ⟨?_, ?_, ?_, ?_⟩
  · intro a h
    exact ⟨by simp [expand_shorthand, h], by simp [expand_shorthand, h]⟩
  · intro a b h
    exact ⟨by simp [expand_shorthand, h], by simp [expand_shorthand, h]⟩
  · intro a b c h
    exact ⟨by simp [expand_shorthand, h], by simp [expand_shorthand, h]⟩
  · intro a b c d h
    exact ⟨by simp [expand_shorthand, h], by simp [expand_shorthand, h]⟩

/-- Witness for C7 at the concrete three-value input of the spec. -/
theorem c7_shorthand_expansion_witness :
    wordsOf "1px 2px 3px" = ["1px", "2px", "3px"] ∧
    expand_shorthand .Margin "1px 2px 3px" =
      [(.MarginTop, "1px"), (.MarginRight, "2px"),
        (.MarginBottom, "3px"), (.MarginLeft, "2px")] :=
  ⟨by decide,
    ((c7_shorthand_expansion "1px 2px 3px").2.2.1 "1px" "2px" "3px" (by decide)).1⟩

/-! ## Claim C1: the child combinator (code defect) -/

/-- `<div class="foo"><section><p></p></section></div>` built through the
arena operations: node 1 is the div, node 2 the section, node 3 the p. -/
def c1doc : Document :=
  let s1 := Document.new.create_element "div" none
  let d := s1.1.set_attribute s1.2 "class" "foo"
  let s2 := d.create_element "section" none
  let s3 := s2.1.create_element "p" none
  ((s3.1.append_child 0 1).append_child 1 2).append_child 2 3

/-- C1: evaluation of the selector engine at the failing input.  The `<p>`
(node 3) sits under an intermediate `<section>` (node 2) inside the
`div.foo` (node 1), so per the claim `"div.foo > p"` must not match it —
yet `Selector::matches` returns true.  The parser attaches each combinator
to the group preceding it while the matcher consults the combinator stored
on the current group, so the rightmost group carries `none` and matching
succeeds without ever inspecting the parent. -/
theorem c1_child_combinator_code_bug :
    ((c1doc.get_node 3).map (fun n => n.tag_name)) = some (some "p") ∧
    ((c1doc.get_node 3).map (fun n => n.parent)) = some (some 2) ∧
    ((c1doc.get_node 2).map (fun n => n.tag_name)) = some (some "section") ∧
    ((c1doc.get_node 2).map (fun n => n.parent)) = some (some 1) ∧
    ((c1doc.get_node 1).map (fun n => n.tag_name)) = some (some "div") ∧
    ((c1doc.get_node 1).bind (fun n => n.get_attribute "class")) = some "foo" ∧
    ((Selector.parse "div.foo > p").map
      (fun s => s.parts.map (fun g => g.2))) = some [some .child, none] ∧
    ((Selector.parse "div.foo > p").map (fun s => s.matches c1doc 3)) = some true := by
  decide

/-! ## Claim C3: matching consults only the rightmost group -/

/-- C3 amended: whenever the parsed selector's rightmost compound group
carries no combinator tag, matching a node consults exactly that group: the
groups to its left never affect the result. -/
theorem c3_rightmost_only (sel : Selector) (doc : Document) (nid : Nat)
    (grp : List SelectorPart) (hlast : sel.parts.getLast? = some (grp, none)) :
    sel.matches doc nid =
      (((doc.get_node nid).map (fun n => node_matches_parts n grp)).getD false) := by
  have hget? : sel.parts.get? (sel.parts.length - 1) = some (grp, none) := by
    rw [List.getLast?_eq_getElem?] at hlast
    rw [List.get?_eq_getElem?]
    exact hlast
  have hgetD : sel.parts.getD (sel.parts.length - 1) ([], none) = (grp, none) := by
    rw [List.getD_eq_getElem?_getD, ← List.get?_eq_getElem?, hget?]
    rfl
  unfold Selector.matches Selector.matches_with_context
  cases hn : doc.get_node nid with
  | none => rfl
  | some node =>
    rw [hgetD]
    cases hidx : sel.parts.length - 1 with
    | zero => cases hnm : node_matches_parts node grp <;> simp [hnm]
    | succ k => cases hnm : node_matches_parts node grp <;> simp [hnm]

/-- Witness for the amended C3 at a concrete selector and node. -/
theorem c3_rightmost_only_witness :
    (⟨[([.typeName "p"], none)], ⟨0, 0, 0, 1⟩⟩ : Selector).matches c1doc 3 =
      (((c1doc.get_node 3).map
        (fun n => node_matches_parts n [.typeName "p"])).getD false) :=
  c3_rightmost_only ⟨[([.typeName "p"], none)], ⟨0, 0, 0, 1⟩⟩ c1doc 3
    [.typeName "p"] (by decide)

/-- A document whose node 1 is a `<b>` element directly under the root. -/
def c3doc : Document := (Document.new.create_element "b" none).1.append_child 0 1

/-- The parse of `"a b []"`: the empty attribute selector is dropped, so the
rightmost parsed group is `b` and it still carries a descendant tag. -/
def c3sel : Selector :=
  ⟨[([.typeName "a"], some .descendant), ([.typeName "b"], some .descendant)],
    ⟨0, 0, 0, 2⟩⟩

/-- C3 counterexample: the selector string `"a b []"` does not end in a
combinator character after trimming, yet its parsed rightmost compound
group still carries a combinator tag, and matching then does consult the
groups to the left: node 1 satisfies the rightmost group but does not
match, because no `<a>` ancestor exists. -/
theorem c3_counterexample_string_condition :
    Selector.parse "a b []" = some c3sel ∧
    (strTrim "a b []").data.getLast? = some ']' ∧
    (']' ∉ ([' ', '>', '+', '~'] : List Char)) ∧
    c3sel.parts.getLast? = some ([.typeName "b"], some .descendant) ∧
    ((c3doc.get_node 1).map (fun n => node_matches_parts n [.typeName "b"]))
      = some true ∧
    c3sel.matches c3doc 1 = false := by
  decide

/-! ## Claim C9: get_title -/

/-- Inner search of `get_title` as a plain first-hit search. -/
theorem titleTextSearch_eq_findSome (doc : Document) (l : List Nat) :
    doc.titleTextSearch l =
      (l.findSome? (fun tid =>
        (doc.get_node tid).bind (fun tn => tn.text_content))).map strTrim := by
  induction l with
  | nil => rfl
  | cons tid rest ih =>
    rw [List.findSome?_cons]
    cases hg : doc.get_node tid with
    | none => simpa [Document.titleTextSearch, hg] using ih
    | some tn =>
      cases ht : tn.text_content with
      | none => simpa [Document.titleTextSearch, hg, ht] using ih
      | some c => simp [Document.titleTextSearch, hg, ht]

/-- Outer search of `get_title` as a plain first-hit search: a `<title>`
without a text child does not stop the search. -/
theorem headChildSearch_eq_findSome (doc : Document) (l : List Nat) :
    doc.headChildSearch l =
      l.findSome? (fun cid =>
        (doc.get_node cid).bind (fun c =>
          if c.tag_name = some "title" then
            (c.children.findSome? (fun tid =>
              (doc.get_node tid).bind (fun tn => tn.text_content))).map strTrim
          else none)) := by
  induction l with
  | nil => rfl
  | cons cid rest ih =>
    rw [List.findSome?_cons]
    cases hg : doc.get_node cid with
    | none => simpa [Document.headChildSearch, hg] using ih
    | some c =>
      simp only [Option.some_bind]
      by_cases ht : c.tag_name = some "title"
      · rw [if_pos ht, ← titleTextSearch_eq_findSome]
        cases hs : doc.titleTextSearch c.children with
        | none => simpa [Document.headChildSearch, hg, ht, hs] using ih
        | some s => simp [Document.headChildSearch, hg, ht, hs]
      · rw [if_neg ht]
        simpa [Document.headChildSearch, hg, ht] using ih

/-- C9 amended: `get_title` inspects only the direct children of the cached
head element and returns the trimmed content of the *first* text child of
the first `<title>` child that has a text child (not the concatenation of
all text children); it returns `none` when there is no head, no such title,
or no text inside any title. -/
theorem c9_get_title_first_text (doc : Document) :
    doc.get_title =
      (doc.head.bind (fun h => doc.get_node h)).bind (fun hn =>
        hn.children.findSome? (fun cid =>
          (doc.get_node cid).bind (fun c =>
            if c.tag_name = some "title" then
              (c.children.findSome? (fun tid =>
                (doc.get_node tid).bind (fun tn => tn.text_content))).map strTrim
            else none))) := by
  unfold Document.get_title
  cases hh : doc.head with
  | none => rfl
  | some h =>
    cases hg : doc.get_node h with
    | none => simp [hg]
    | some hn => simp [hg, headChildSearch_eq_findSome]

/-- Document with `<head><title>` holding two text children
`"Hello "` and `"World"`. -/
def c9doc : Document :=
  let s1 := Document.new.create_element "head" none
  let s2 := s1.1.create_element "title" none
  let s3 := s2.1.create_text "Hello "
  let s4 := s3.1.create_text "World"
  (((s4.1.append_child 0 1).append_child 1 2).append_child 2 3).append_child 2 4

theorem getLast?_listModify_last (l : List α) (f : α → α) :
    (listModify l (l.length - 1) f).getLast? = (l.getLast?).map f := by
  rw [List.getLast?_eq_getElem?, List.getLast?_eq_getElem?, length_listModify,
    ← List.get?_eq_getElem?, ← List.get?_eq_getElem?, get?_listModify_self]

theorem getLast?_listModify_append (l : List α) (x : α) (f : α → α) :
    (listModify (l ++ [x]) l.length f).getLast? = some (f x) := by
  have h : l.length = (l ++ [x]).length - 1 := by simp
  rw [h, getLast?_listModify_last, List.getLast?_concat]
  rfl

/-! ## Claim C8: inline text layout -/

/-- C8: adding text to the inline context processes exactly the
whitespace-split words; each word becomes a fragment of width
`length × font_size × 0.6`; a word starts a new line exactly when it would
exceed the line width and the cursor has advanced (so a fresh line always
accepts its first word, even overflowing); each placed word advances the
cursor by its own width plus one space width `font_size × 0.6`. -/
theorem c8_inline_text_layout (lid : Nat) (fs : ℚ) (text : String)
    (ctx : InlineContext) :
    (ctx.add_text lid text fs = (wordsOf text).foldl (InlineContext.addWord lid fs) ctx) ∧
    ∀ (c : InlineContext) (w : String),
      c.current_line + 1 = c.lines.length →
      (((c.cursor_x + (w.length : ℚ) * (fs * (3 / 5)) > c.width ∧ c.cursor_x > 0) →
        (InlineContext.addWord lid fs c w).lines.length = c.lines.length + 1 ∧
        ((InlineContext.addWord lid fs c w).lines.getLast?).map (fun l => l.fragments) =
          some [⟨lid, ⟨0, 0, (w.length : ℚ) * (fs * (3 / 5)), fs * (6 / 5)⟩,
            some w, .text⟩] ∧
        (InlineContext.addWord lid fs c w).cursor_x =
          (w.length : ℚ) * (fs * (3 / 5)) + fs * (3 / 5)) ∧
      (¬ (c.cursor_x + (w.length : ℚ) * (fs * (3 / 5)) > c.width ∧ c.cursor_x > 0) →
        (InlineContext.addWord lid fs c w).lines.length = c.lines.length ∧
        ((InlineContext.addWord lid fs c w).lines.getLast?) =
          (c.lines.getLast?).map (fun l => l.add_fragment
            ⟨lid, ⟨c.cursor_x, 0, (w.length : ℚ) * (fs * (3 / 5)), fs * (6 / 5)⟩,
              some w, .text⟩) ∧
        (InlineContext.addWord lid fs c w).cursor_x =
          c.cursor_x + (w.length : ℚ) * (fs * (3 / 5)) + fs * (3 / 5)) ∧
      (c.cursor_x = 0 →
        (InlineContext.addWord lid fs c w).lines.length = c.lines.length)) := by
  refine ⟨rfl, ?_⟩
  intro c w hwf
  have hlen : c.current_line = c.lines.length - 1 := by omega
  refine ⟨?_, ?_, ?_⟩
  · intro hcond
    simp only [InlineContext.addWord, InlineContext.new_line, if_pos hcond]
    refine ⟨by simp, ?_, by ring_nf⟩
    rw [getLast?_listModify_append]
    simp [LineBox.mkNew, LineBox.add_fragment]
  · intro hcond
    simp only [InlineContext.addWord, if_neg hcond]
    refine ⟨by simp, ?_, by ring_nf⟩
    rw [hlen, getLast?_listModify_last]
  · intro hzero
    have hcond : ¬ (c.cursor_x + (w.length : ℚ) * (fs * (3 / 5)) > c.width ∧
        c.cursor_x > 0) := by
      intro hc
      rw [hzero] at hc
      exact lt_irrefl 0 hc.2
    simp only [InlineContext.addWord, if_neg hcond]
    simp

/-- Witness for C8: on a fresh 100-wide line at font size 10 the word `hi`
is placed without wrapping and the cursor advances to `12 + 6 = 18`. -/
theorem c8_inline_text_layout_witness :
    (InlineContext.addWord 0 10 (InlineContext.mkNew 100 0) "hi").lines.length =
      (InlineContext.mkNew 100 0).lines.length ∧
    (InlineContext.addWord 0 10 (InlineContext.mkNew 100 0) "hi").cursor_x =
      (InlineContext.mkNew 100 0).cursor_x + ("hi".length : ℚ) * (10 * (3 / 5)) + 10 * (3 / 5) := by
  have h := ((c8_inline_text_layout 0 10 "hi" (InlineContext.mkNew 100 0)).2
    (InlineContext.mkNew 100 0) "hi" (by decide)).2.1
    (by
      intro hc
      have h0 : (InlineContext.mkNew 100 0).cursor_x = 0 := rfl
      rw [h0] at hc
      exact lt_irrefl 0 hc.2)
  exact ⟨h.1, h.2.2⟩

/-! ## Claims C5 and C6: block layout geometry -/

@[simp]
theorem posBlock_children (sx cy : ℚ) (c : LayoutNode) :
    (posBlock sx cy c).children = c.children := rfl

@[simp]
theorem posBlock_box_type (sx cy : ℚ) (c : LayoutNode) :
    (posBlock sx cy c).box_type = c.box_type := rfl

@[simp]
theorem posBlock_parent (sx cy : ℚ) (c : LayoutNode) :
    (posBlock sx cy c).parent = c.parent := rfl

@[simp]
theorem posBlock_x (sx cy : ℚ) (c : LayoutNode) :
    (posBlock sx cy c).dimensions.content.x = sx + c.dimensions.margin.left := rfl

@[simp]
theorem posBlock_y (sx cy : ℚ) (c : LayoutNode) :
    (posBlock sx cy c).dimensions.content.y = cy + c.dimensions.margin.top := rfl

@[simp]
theorem posBlock_width (sx cy : ℚ) (c : LayoutNode) :
    (posBlock sx cy c).dimensions.content.width = c.dimensions.content.width := rfl

@[simp]
theorem posBlock_height (sx cy : ℚ) (c : LayoutNode) :
    (posBlock sx cy c).dimensions.content.height = c.dimensions.content.height := rfl

@[simp]
theorem posBlock_padding (sx cy : ℚ) (c : LayoutNode) :
    (posBlock sx cy c).dimensions.padding = c.dimensions.padding := rfl

@[simp]
theorem posBlock_border (sx cy : ℚ) (c : LayoutNode) :
    (posBlock sx cy c).dimensions.border = c.dimensions.border := rfl

@[simp]
theorem posBlock_margin (sx cy : ℚ) (c : LayoutNode) :
    (posBlock sx cy c).dimensions.margin = c.dimensions.margin := rfl

@[simp]
theorem widthResolve_children (pw : ℚ) (n : LayoutNode) :
    (widthResolve pw n).children = n.children := by
  unfold widthResolve; split <;> rfl

@[simp]
theorem widthResolve_box_type (pw : ℚ) (n : LayoutNode) :
    (widthResolve pw n).box_type = n.box_type := by
  unfold widthResolve; split <;> rfl

@[simp]
theorem widthResolve_parent (pw : ℚ) (n : LayoutNode) :
    (widthResolve pw n).parent = n.parent := by
  unfold widthResolve; split <;> rfl

@[simp]
theorem widthResolve_x (pw : ℚ) (n : LayoutNode) :
    (widthResolve pw n).dimensions.content.x = n.dimensions.content.x := by
  unfold widthResolve; split <;> rfl

@[simp]
theorem widthResolve_y (pw : ℚ) (n : LayoutNode) :
    (widthResolve pw n).dimensions.content.y = n.dimensions.content.y := by
  unfold widthResolve; split <;> rfl

@[simp]
theorem widthResolve_height (pw : ℚ) (n : LayoutNode) :
    (widthResolve pw n).dimensions.content.height = n.dimensions.content.height := by
  unfold widthResolve; split <;> rfl

@[simp]
theorem widthResolve_padding (pw : ℚ) (n : LayoutNode) :
    (widthResolve pw n).dimensions.padding = n.dimensions.padding := by
  unfold widthResolve; split <;> rfl

@[simp]
theorem widthResolve_border (pw : ℚ) (n : LayoutNode) :
    (widthResolve pw n).dimensions.border = n.dimensions.border := by
  unfold widthResolve; split <;> rfl

@[simp]
theorem widthResolve_margin (pw : ℚ) (n : LayoutNode) :
    (widthResolve pw n).dimensions.margin = n.dimensions.margin := by
  unfold widthResolve; split <;> rfl

theorem widthResolve_width (pw : ℚ) (n : LayoutNode) :
    (widthResolve pw n).dimensions.content.width =
      if n.dimensions.content.width = 0 then
        pw - n.dimensions.margin.horizontal - n.dimensions.padding.horizontal
          - n.dimensions.border.horizontal
      else n.dimensions.content.width := by
  unfold widthResolve; split <;> simp [*]

theorem widthResolve_of_ne (pw : ℚ) (n : LayoutNode)
    (h : n.dimensions.content.width ≠ 0) : widthResolve pw n = n := by
  unfold widthResolve; rw [if_neg h]

@[simp]
theorem heightResolve_children (mb : ℚ) (n : LayoutNode) :
    (heightResolve mb n).children = n.children := by
  unfold heightResolve; split <;> rfl

@[simp]
theorem heightResolve_box_type (mb : ℚ) (n : LayoutNode) :
    (heightResolve mb n).box_type = n.box_type := by
  unfold heightResolve; split <;> rfl

@[simp]
theorem heightResolve_parent (mb : ℚ) (n : LayoutNode) :
    (heightResolve mb n).parent = n.parent := by
  unfold heightResolve; split <;> rfl

@[simp]
theorem heightResolve_x (mb : ℚ) (n : LayoutNode) :
    (heightResolve mb n).dimensions.content.x = n.dimensions.content.x := by
  unfold heightResolve; split <;> rfl

@[simp]
theorem heightResolve_y (mb : ℚ) (n : LayoutNode) :
    (heightResolve mb n).dimensions.content.y = n.dimensions.content.y := by
  unfold heightResolve; split <;> rfl

@[simp]
theorem heightResolve_width (mb : ℚ) (n : LayoutNode) :
    (heightResolve mb n).dimensions.content.width = n.dimensions.content.width := by
  unfold heightResolve; split <;> rfl

@[simp]
theorem heightResolve_padding (mb : ℚ) (n : LayoutNode) :
    (heightResolve mb n).dimensions.padding = n.dimensions.padding := by
  unfold heightResolve; split <;> rfl

@[simp]
theorem heightResolve_border (mb : ℚ) (n : LayoutNode) :
    (heightResolve mb n).dimensions.border = n.dimensions.border := by
  unfold heightResolve; split <;> rfl

@[simp]
theorem heightResolve_margin (mb : ℚ) (n : LayoutNode) :
    (heightResolve mb n).dimensions.margin = n.dimensions.margin := by
  unfold heightResolve; split <;> rfl

theorem get_node_modifyNode_self (t : LayoutTree) (i : Nat)
    (f : LayoutNode → LayoutNode) :
    (t.modifyNode i f).get_node i = (t.get_node i).map f := by
  show (listModify t.nodes i f).get? i = (t.nodes.get? i).map f
  exact get?_listModify_self _ _ _

theorem get_node_modifyNode_ne (t : LayoutTree) (i : Nat)
    (f : LayoutNode → LayoutNode) (j : Nat) (h : j ≠ i) :
    (t.modifyNode i f).get_node j = t.get_node j := by
  show (listModify t.nodes i f).get? j = t.nodes.get? j
  exact get?_listModify_ne _ _ _ _ h

theorem calcW_get_self (t : LayoutTree) (id : Nat) :
    (calculate_block_width t id).get_node id =
      (t.get_node id).map (widthResolve (parentWidth t id)) :=
  get_node_modifyNode_self _ _ _

theorem calcW_get_ne (t : LayoutTree) (id j : Nat) (h : j ≠ id) :
    (calculate_block_width t id).get_node j = t.get_node j :=
  get_node_modifyNode_ne _ _ _ _ h

theorem calcH_get_self (t : LayoutTree) (id : Nat) :
    (calculate_block_height t id).get_node id =
      (t.get_node id).map (heightResolve (maxBottom t id)) :=
  get_node_modifyNode_self _ _ _

theorem calcH_get_ne (t : LayoutTree) (id j : Nat) (h : j ≠ id) :
    (calculate_block_height t id).get_node j = t.get_node j :=
  get_node_modifyNode_ne _ _ _ _ h

theorem parentWidth_eq (t : LayoutTree) (id p : Nat) (c pn : LayoutNode)
    (h1 : t.get_node id = some c) (h2 : c.parent = some p)
    (h3 : t.get_node p = some pn) :
    parentWidth t id = pn.dimensions.content.width := by
  simp [parentWidth, h1, h2, h3]

theorem maxBottom_of_leaf (t : LayoutTree) (id : Nat) (c : LayoutNode)
    (h : t.get_node id = some c) (hc : c.children = []) : maxBottom t id = 0 := by
  simp [maxBottom, h, hc]

theorem layout_block_succ (fuel : Nat) (t : LayoutTree) (id : Nat) :
    layout_block (fuel + 1) t id =
      calculate_block_height
        (layout_block_children (layout_block fuel) (calculate_block_width t id) id) id :=
  rfl

theorem layout_block_children_eq (recur : LayoutTree → Nat → LayoutTree)
    (t : LayoutTree) (id : Nat) (node : LayoutNode) (h : t.get_node id = some node) :
    layout_block_children recur t id =
      (node.children.foldl
        (childStep recur (node.dimensions.content.x + node.dimensions.padding.left))
        (t, node.dimensions.content.y + node.dimensions.padding.top)).1 := by
  unfold layout_block_children
  rw [h]

theorem childStep_block_eq (recur : LayoutTree → Nat → LayoutTree) (sx : ℚ)
    (t : LayoutTree) (cy : ℚ) (cid : Nat) (c : LayoutNode)
    (h : t.get_node cid = some c) (hbt : c.box_type = .block) :
    childStep recur sx (t, cy) cid =
      (recur (t.modifyNode cid (posBlock sx cy)) cid,
        cy + (((recur (t.modifyNode cid (posBlock sx cy)) cid).get_node cid).map
          (fun n => n.dimensions.total_height)).getD 0) := by
  unfold childStep
  simp [h, hbt]

/-- A leaf block box after one `layout_block` pass: width then height. -/
def leafLayout (pw : ℚ) (c : LayoutNode) : LayoutNode :=
  heightResolve 0 (widthResolve pw c)

theorem layout_block_leaf (fuel : Nat) (t : LayoutTree) (cid : Nat)
    (c : LayoutNode) (hc : t.get_node cid = some c) (hleaf : c.children = []) :
    layout_block (fuel + 1) t cid =
      calculate_block_height (calculate_block_width t cid) cid := by
  rw [layout_block_succ]
  have h1 : (calculate_block_width t cid).get_node cid =
      some (widthResolve (parentWidth t cid) c) := by
    rw [calcW_get_self, hc]; rfl
  rw [layout_block_children_eq _ _ _ _ h1]
  simp [hleaf]

theorem layout_block_leaf_get (fuel : Nat) (t : LayoutTree) (cid : Nat)
    (c : LayoutNode) (hc : t.get_node cid = some c) (hleaf : c.children = []) :
    (layout_block (fuel + 1) t cid).get_node cid =
      some (leafLayout (parentWidth t cid) c) ∧
    ∀ j, j ≠ cid → (layout_block (fuel + 1) t cid).get_node j = t.get_node j := by
  rw [layout_block_leaf fuel t cid c hc hleaf]
  have h1 : (calculate_block_width t cid).get_node cid =
      some (widthResolve (parentWidth t cid) c) := by
    rw [calcW_get_self, hc]; rfl
  have hmb : maxBottom (calculate_block_width t cid) cid = 0 :=
    maxBottom_of_leaf _ _ _ h1 (by simp [hleaf])
  constructor
  · rw [calcH_get_self, h1, hmb]
    rfl
  · intro j hj
    rw [calcH_get_ne _ _ _ hj, calcW_get_ne _ _ _ hj]

/-- Processing one leaf block child of the child loop: the child is
positioned at the cursor, laid out against the parent's content width, and
the cursor advances by its total height. -/
theorem childStep_leaf (fuel : Nat) (sx : ℚ) (t : LayoutTree) (cy : ℚ)
    (cid pid : Nat) (c pn : LayoutNode)
    (h : t.get_node cid = some c) (hbt : c.box_type = .block)
    (hlc : c.children = []) (hpar : c.parent = some pid) (hne : pid ≠ cid)
    (hpn : t.get_node pid = some pn) :
    ∃ t' : LayoutTree,
      childStep (layout_block (fuel + 1)) sx (t, cy) cid =
        (t', cy + (leafLayout pn.dimensions.content.width
          (posBlock sx cy c)).dimensions.total_height) ∧
      t'.get_node cid =
        some (leafLayout pn.dimensions.content.width (posBlock sx cy c)) ∧
      ∀ j, j ≠ cid → t'.get_node j = t.get_node j := by
  have h2 : (t.modifyNode cid (posBlock sx cy)).get_node cid =
      some (posBlock sx cy c) := by
    rw [get_node_modifyNode_self, h]; rfl
  have h2p : (t.modifyNode cid (posBlock sx cy)).get_node pid = some pn := by
    rw [get_node_modifyNode_ne _ _ _ _ hne]; exact hpn
  have hpw : parentWidth (t.modifyNode cid (posBlock sx cy)) cid =
      pn.dimensions.content.width :=
    parentWidth_eq _ _ _ _ _ h2 (by simp [hpar]) h2p
  obtain ⟨hT, hTne⟩ :=
    layout_block_leaf_get fuel _ cid (posBlock sx cy c) h2 (by simp [hlc])
  rw [hpw] at hT
  refine ⟨layout_block (fuel + 1) (t.modifyNode cid (posBlock sx cy)) cid, ?_, hT, ?_⟩
  · rw [childStep_block_eq _ _ _ _ _ _ h hbt, hT]
    rfl
  · intro j hj
    rw [hTne j hj, get_node_modifyNode_ne _ _ _ _ hj]

/-- Layout of a block parent with a single leaf block child. -/
theorem layout_children_one_leaf (fuel : Nat) (t : LayoutTree) (pid ca : Nat)
    (np na : LayoutNode)
    (hp : t.get_node pid = some np) (hch : np.children = [ca])
    (ha : t.get_node ca = some na) (hap : pid ≠ ca)
    (hta : na.box_type = .block) (hla : na.children = [])
    (hpa : na.parent = some pid) :
    (layout_block_children (layout_block (fuel + 1)) t pid).get_node ca =
      some (leafLayout np.dimensions.content.width
        (posBlock (np.dimensions.content.x + np.dimensions.padding.left)
          (np.dimensions.content.y + np.dimensions.padding.top) na)) ∧
    (layout_block_children (layout_block (fuel + 1)) t pid).get_node pid = some np := by
  rw [layout_block_children_eq _ _ _ _ hp, hch, List.foldl_cons]
  obtain ⟨t1, hstep, hca, hne⟩ :=
    childStep_leaf fuel (np.dimensions.content.x + np.dimensions.padding.left) t
      (np.dimensions.content.y + np.dimensions.padding.top) ca pid na np
      ha hta hla hpa hap hp
  rw [hstep, List.foldl_nil]
  exact ⟨hca, (hne pid hap).trans hp⟩

/-- Layout of a block parent with two leaf block children: the second child
starts where the first child's total (margin-box) height left the cursor. -/
theorem layout_children_two_leaves (fuel : Nat) (t : LayoutTree)
    (pid ca cb : Nat) (np na nb : LayoutNode)
    (hp : t.get_node pid = some np) (hch : np.children = [ca, cb])
    (ha : t.get_node ca = some na) (hb : t.get_node cb = some nb)
    (hap : pid ≠ ca) (hbp : pid ≠ cb) (hba : cb ≠ ca) (hab : ca ≠ cb)
    (hta : na.box_type = .block) (htb : nb.box_type = .block)
    (hla : na.children = []) (hlb : nb.children = [])
    (hpa : na.parent = some pid) (hpb : nb.parent = some pid) :
    (layout_block_children (layout_block (fuel + 1)) t pid).get_node ca =
      some (leafLayout np.dimensions.content.width
        (posBlock (np.dimensions.content.x + np.dimensions.padding.left)
          (np.dimensions.content.y + np.dimensions.padding.top) na)) ∧
    (layout_block_children (layout_block (fuel + 1)) t pid).get_node cb =
      some (leafLayout np.dimensions.content.width
        (posBlock (np.dimensions.content.x + np.dimensions.padding.left)
          ((np.dimensions.content.y + np.dimensions.padding.top) +
            (leafLayout np.dimensions.content.width
              (posBlock (np.dimensions.content.x + np.dimensions.padding.left)
                (np.dimensions.content.y + np.dimensions.padding.top)
                na)).dimensions.total_height) nb)) ∧
    (layout_block_children (layout_block (fuel + 1)) t pid).get_node pid = some np := by
  rw [layout_block_children_eq _ _ _ _ hp, hch, List.foldl_cons]
  obtain ⟨t1, hstep1, h1a, h1ne⟩ :=
    childStep_leaf fuel (np.dimensions.content.x + np.dimensions.padding.left) t
      (np.dimensions.content.y + np.dimensions.padding.top) ca pid na np
      ha hta hla hpa hap hp
  rw [hstep1, List.foldl_cons]
  have hb1 : t1.get_node cb = some nb := (h1ne cb hba).trans hb
  have hp1 : t1.get_node pid = some np := (h1ne pid hap).trans hp
  obtain ⟨t2, hstep2, h2b, h2ne⟩ :=
    childStep_leaf fuel (np.dimensions.content.x + np.dimensions.padding.left) t1
      ((np.dimensions.content.y + np.dimensions.padding.top) +
        (leafLayout np.dimensions.content.width
          (posBlock (np.dimensions.content.x + np.dimensions.padding.left)
            (np.dimensions.content.y + np.dimensions.padding.top)
            na)).dimensions.total_height)
      cb pid nb np hb1 htb hlb hpb hbp hp1
  rw [hstep2, List.foldl_nil]
  exact ⟨(h2ne ca hab).trans h1a, h2b, (h2ne pid hbp).trans hp1⟩

def zeroDims : Dimensions := ⟨⟨0, 0, 0, 0⟩, EdgeSizes.zero, EdgeSizes.zero, EdgeSizes.zero⟩

/-- First-child scenario for C5: a block parent of content width 800 with one
block child whose width, margins, padding and border are all zero. -/
def c5treeA (x0 y0 hA : ℚ) (ppA : EdgeSizes) : LayoutTree :=
  ⟨[⟨0, none, .block, ⟨⟨x0, y0, 800, 0⟩, ppA, EdgeSizes.zero, EdgeSizes.zero⟩, [1], none, none⟩,
    ⟨1, none, .block, ⟨⟨0, 0, 0, hA⟩, EdgeSizes.zero, EdgeSizes.zero, EdgeSizes.zero⟩, [], some 0, none⟩],
   0, (1920, 1080)⟩

/-- Sibling scenario for C5: the same parent with an arbitrary first block
child (node 1) and the all-zero subject block child (node 2). -/
def c5treeB (x0 y0 w1 h1 h2 : ℚ) (pp p b m : EdgeSizes) : LayoutTree :=
  ⟨[⟨0, none, .block, ⟨⟨x0, y0, 800, 0⟩, pp, EdgeSizes.zero, EdgeSizes.zero⟩, [1, 2], none, none⟩,
    ⟨1, none, .block, ⟨⟨0, 0, w1, h1⟩, p, b, m⟩, [], some 0, none⟩,
    ⟨2, none, .block, ⟨⟨0, 0, 0, h2⟩, EdgeSizes.zero, EdgeSizes.zero, EdgeSizes.zero⟩, [], some 0, none⟩],
   0, (1920, 1080)⟩

/-- C5 amended: with a containing block of content width 800 and a subject
block box whose width, margins, padding and border are all zero, block
layout resolves the subject's content width to 800; the subject's content-y
is the parent's content-rect y plus the parent's top padding when it is the
first child, and, when it follows a sibling, the sibling's final margin-box
bottom edge plus the sibling's top padding and top border (these coincide
with the claim's padding-box origin and margin-box bottom edge exactly when
the respective top paddings and borders are zero). -/
theorem c5_block_width_and_position (x0 y0 hA : ℚ) (ppA : EdgeSizes)
    (x0' y0' w1 h1 h2 : ℚ) (pp p b m : EdgeSizes) :
    (((layout_block 2 (c5treeA x0 y0 hA ppA) 0).get_node 1).map
        (fun n => n.dimensions.content.width) = some 800 ∧
      ((layout_block 2 (c5treeA x0 y0 hA ppA) 0).get_node 1).map
        (fun n => n.dimensions.content.y) = some (y0 + ppA.top)) ∧
    (((layout_block 2 (c5treeB x0' y0' w1 h1 h2 pp p b m) 0).get_node 2).map
        (fun n => n.dimensions.content.width) = some 800 ∧
      ((layout_block 2 (c5treeB x0' y0' w1 h1 h2 pp p b m) 0).get_node 2).map
        (fun n => n.dimensions.content.y) =
      ((layout_block 2 (c5treeB x0' y0' w1 h1 h2 pp p b m) 0).get_node 1).map
        (fun s => s.dimensions.margin_box.bottomEdge +
          s.dimensions.padding.top + s.dimensions.border.top)) := by
  constructor
  · -- first-child scenario
    have hexp : layout_block 2 (c5treeA x0 y0 hA ppA) 0 =
        calculate_block_height
          (layout_block_children (layout_block 1)
            (calculate_block_width (c5treeA x0 y0 hA ppA) 0) 0) 0 := rfl
    have h0 : (c5treeA x0 y0 hA ppA).get_node 0 =
        some ⟨0, none, .block, ⟨⟨x0, y0, 800, 0⟩, ppA, EdgeSizes.zero, EdgeSizes.zero⟩, [1], none, none⟩ := rfl
    have hW0 : (calculate_block_width (c5treeA x0 y0 hA ppA) 0).get_node 0 =
        some ⟨0, none, .block, ⟨⟨x0, y0, 800, 0⟩, ppA, EdgeSizes.zero, EdgeSizes.zero⟩, [1], none, none⟩ := by
      rw [calcW_get_self, h0, Option.map_some']
      rw [widthResolve_of_ne _ _ (by norm_num)]
    have hW1 : (calculate_block_width (c5treeA x0 y0 hA ppA) 0).get_node 1 =
        some ⟨1, none, .block, ⟨⟨0, 0, 0, hA⟩, EdgeSizes.zero, EdgeSizes.zero, EdgeSizes.zero⟩, [], some 0, none⟩ := by
      rw [calcW_get_ne _ _ _ (by norm_num)]; rfl
    obtain ⟨hca, hcp⟩ := layout_children_one_leaf 0 _ 0 1 _ _ hW0 rfl hW1
      (by norm_num) rfl rfl rfl
    have hfin : (layout_block 2 (c5treeA x0 y0 hA ppA) 0).get_node 1 =
        (layout_block_children (layout_block 1)
          (calculate_block_width (c5treeA x0 y0 hA ppA) 0) 0).get_node 1 := by
      rw [hexp, calcH_get_ne _ _ _ (by norm_num)]
    rw [hfin, hca]
    constructor
    · simp only [Option.map_some', Option.some.injEq, leafLayout,
        heightResolve_width, widthResolve_width, posBlock_width, posBlock_margin,
        posBlock_padding, posBlock_border, EdgeSizes.zero, EdgeSizes.horizontal]
      norm_num
    · simp only [Option.map_some', Option.some.injEq, leafLayout,
        heightResolve_y, widthResolve_y, posBlock_y, EdgeSizes.zero]
      norm_num
  · -- sibling scenario
    have hexp : layout_block 2 (c5treeB x0' y0' w1 h1 h2 pp p b m) 0 =
        calculate_block_height
          (layout_block_children (layout_block 1)
            (calculate_block_width (c5treeB x0' y0' w1 h1 h2 pp p b m) 0) 0) 0 := rfl
    have h0 : (c5treeB x0' y0' w1 h1 h2 pp p b m).get_node 0 =
        some ⟨0, none, .block, ⟨⟨x0', y0', 800, 0⟩, pp, EdgeSizes.zero, EdgeSizes.zero⟩, [1, 2], none, none⟩ := rfl
    have hW0 : (calculate_block_width (c5treeB x0' y0' w1 h1 h2 pp p b m) 0).get_node 0 =
        some ⟨0, none, .block, ⟨⟨x0', y0', 800, 0⟩, pp, EdgeSizes.zero, EdgeSizes.zero⟩, [1, 2], none, none⟩ := by
      rw [calcW_get_self, h0, Option.map_some']
      rw [widthResolve_of_ne _ _ (by norm_num)]
    have hW1 : (calculate_block_width (c5treeB x0' y0' w1 h1 h2 pp p b m) 0).get_node 1 =
        some ⟨1, none, .block, ⟨⟨0, 0, w1, h1⟩, p, b, m⟩, [], some 0, none⟩ := by
      rw [calcW_get_ne _ _ _ (by norm_num)]; rfl
    have hW2 : (calculate_block_width (c5treeB x0' y0' w1 h1 h2 pp p b m) 0).get_node 2 =
        some ⟨2, none, .block, ⟨⟨0, 0, 0, h2⟩, EdgeSizes.zero, EdgeSizes.zero, EdgeSizes.zero⟩, [], some 0, none⟩ := by
      rw [calcW_get_ne _ _ _ (by norm_num)]; rfl
    obtain ⟨hca, hcb, hcp⟩ := layout_children_two_leaves 0 _ 0 1 2 _ _ _ hW0 rfl hW1 hW2
      (by norm_num) (by norm_num) (by norm_num) (by norm_num) rfl rfl rfl rfl rfl rfl
    have hfin1 : (layout_block 2 (c5treeB x0' y0' w1 h1 h2 pp p b m) 0).get_node 1 =
        (layout_block_children (layout_block 1)
          (calculate_block_width (c5treeB x0' y0' w1 h1 h2 pp p b m) 0) 0).get_node 1 := by
      rw [hexp, calcH_get_ne _ _ _ (by norm_num)]
    have hfin2 : (layout_block 2 (c5treeB x0' y0' w1 h1 h2 pp p b m) 0).get_node 2 =
        (layout_block_children (layout_block 1)
          (calculate_block_width (c5treeB x0' y0' w1 h1 h2 pp p b m) 0) 0).get_node 2 := by
      rw [hexp, calcH_get_ne _ _ _ (by norm_num)]
    rw [hfin1, hfin2, hca, hcb]
    constructor
    · simp only [Option.map_some', Option.some.injEq, leafLayout,
        heightResolve_width, widthResolve_width, posBlock_width, posBlock_margin,
        posBlock_padding, posBlock_border, EdgeSizes.zero, EdgeSizes.horizontal]
      norm_num
    · simp only [Option.map_some', Option.some.injEq, leafLayout,
        Dimensions.total_height, Dimensions.margin_box, Dimensions.border_box,
        Dimensions.padding_box, Rect.expand, Rect.bottomEdge,
        heightResolve_y, heightResolve_x, heightResolve_width, heightResolve_padding,
        heightResolve_border, heightResolve_margin,
        widthResolve_y, widthResolve_x, widthResolve_height, widthResolve_padding,
        widthResolve_border, widthResolve_margin,
        posBlock_y, posBlock_x, posBlock_height, posBlock_padding, posBlock_border,
        posBlock_margin, EdgeSizes.zero, EdgeSizes.vertical]
      ring_nf

/-- Witness for the amended C5 at concrete inputs (the counterexample tree:
sibling with top padding 10, height 5, width 50 under an 800-wide parent). -/
theorem c5_block_width_and_position_witness :
    ((layout_block 2 (c5treeB 0 0 50 5 0 EdgeSizes.zero ⟨10, 0, 0, 0⟩
        EdgeSizes.zero EdgeSizes.zero) 0).get_node 2).map
      (fun n => n.dimensions.content.width) = some 800 :=
  ((c5_block_width_and_position 0 0 0 EdgeSizes.zero 0 0 50 5 0 EdgeSizes.zero
    ⟨10, 0, 0, 0⟩ EdgeSizes.zero EdgeSizes.zero).2).1

/-- C5 counterexample: in the sibling scenario with a sibling of top padding
10 and height 5, the subject's content-y is 15, while the sibling's
margin-box bottom edge is 5 — the claim's equality fails (the width half
of the claim does hold, 800). -/
theorem c5_counterexample_margin_box_edge :
    ((layout_block 2 (c5treeB 0 0 50 5 0 EdgeSizes.zero ⟨10, 0, 0, 0⟩
        EdgeSizes.zero EdgeSizes.zero) 0).get_node 2).map
      (fun n => n.dimensions.content.y) = some 15 ∧
    ((layout_block 2 (c5treeB 0 0 50 5 0 EdgeSizes.zero ⟨10, 0, 0, 0⟩
        EdgeSizes.zero EdgeSizes.zero) 0).get_node 1).map
      (fun n => n.dimensions.margin_box.bottomEdge) = some 5 ∧
    ((layout_block 2 (c5treeB 0 0 50 5 0 EdgeSizes.zero ⟨10, 0, 0, 0⟩
        EdgeSizes.zero EdgeSizes.zero) 0).get_node 2).map
      (fun n => n.dimensions.content.width) = some 800 ∧
    ¬ ((15 : ℚ) = 5) := by
  refine ⟨?_, ?_, ?_, by norm_num⟩ <;> with_unfolding_all rfl

/-- Layout tree for the C6 counterexample: the child's left margin (2000)
exceeds the 1920 viewport width that auto width resolution fills against. -/
def c6tree : LayoutTree :=
  ⟨[⟨0, none, .block, zeroDims, [1], none, none⟩,
    ⟨1, none, .block, { zeroDims with margin := ⟨0, 0, 0, 2000⟩ }, [], some 0, none⟩],
   0, (1920, 1080)⟩

/-- C6 counterexample: a full layout pass (`LayoutTree::layout`) produces a
rectangle of negative width: auto width resolution subtracts the box's
horizontal margin extent from the containing width without clamping. -/
theorem c6_counterexample_negative_width :
    ((c6tree.layout 2).get_node 1).map (fun n => n.dimensions.content.width) =
      some (-80) ∧
    (-80 : ℚ) < 0 := by
  refine ⟨by with_unfolding_all rfl, by norm_num⟩

/-- C6 amended: the height computation clamps: whenever a box's content
height is zero ("auto") before `calculate_block_height`, the height it
stores is non-negative.  (Widths are not clamped, see the counterexample.) -/
theorem c6_auto_height_clamped (t : LayoutTree) (id : Nat) (n n' : LayoutNode)
    (hpre : t.get_node id = some n) (hzero : n.dimensions.content.height = 0)
    (hpost : (calculate_block_height t id).get_node id = some n') :
    0 ≤ n'.dimensions.content.height := by
  rw [calcH_get_self, hpre, Option.map_some', Option.some.injEq] at hpost
  rw [← hpost]
  unfold heightResolve
  rw [if_pos hzero]
  show (0 : ℚ) ≤ if _ < 0 then 0 else _
  split
  · exact le_refl 0
  · next hlt => exact le_of_not_lt hlt

/-- Witness for the amended C6: a single zero-height box keeps height 0. -/
theorem c6_auto_height_clamped_witness :
    0 ≤ ((⟨0, none, .block, zeroDims, [], none, none⟩ : LayoutNode)).dimensions.content.height :=
  c6_auto_height_clamped ⟨[⟨0, none, .block, zeroDims, [], none, none⟩], 0, (100, 100)⟩
    0 ⟨0, none, .block, zeroDims, [], none, none⟩
    ⟨0, none, .block, zeroDims, [], none, none⟩ rfl rfl
    (by with_unfolding_all rfl)

/-- C9 counterexample: with two text children inside the title, `get_title`
returns the trimmed first text child, not the trimmed concatenation of all
text children the claim describes. -/
theorem c9_counterexample_concatenation :
    c9doc.get_title = some "Hello" ∧
    ((c9doc.get_node 2).map (fun n => n.tag_name)) = some (some "title") ∧
    ((c9doc.get_node 2).map (fun n => n.children)) = some [3, 4] ∧
    ((c9doc.get_node 3).map (fun n => n.text_content)) = some (some "Hello ") ∧
    ((c9doc.get_node 4).map (fun n => n.text_content)) = some (some "World") ∧
    strTrim ("Hello " ++ "World") = "Hello World" ∧
    ¬ (some "Hello" = some "Hello World") := by
  decide

/-! ## Claim C10: DOM link consistency -/

/-- The recorded parent pointer of arena entry `x`. -/
def parentOf (d : Document) (x : Nat) : Option Nat :=
  (d.get_node x).bind Node.parent

/-- The recorded next-sibling pointer of arena entry `x`. -/
def nextOf (d : Document) (x : Nat) : Option Nat :=
  (d.get_node x).bind Node.nextSibling

/-- The recorded previous-sibling pointer of arena entry `x`. -/
def prevOf (d : Document) (x : Nat) : Option Nat :=
  (d.get_node x).bind Node.prevSibling

/-- `x` appears in the child list of the (existing) node `q`. -/
def inChildList (d : Document) (q x : Nat) : Prop :=
  ∃ qn, d.get_node q = some qn ∧ x ∈ qn.children

/-- Parent/child-list agreement: a node records parent `q` iff it appears
in `q`'s child list. -/
def linksConsistent (d : Document) : Prop :=
  ∀ x q, parentOf d x = some q ↔ inChildList d q x

/-- Adjacent child-list entries carry matching sibling pointers. -/
def sibR (d : Document) (a b : Nat) : Prop :=
  nextOf d a = some b ∧ prevOf d b = some a

def siblingsChain (d : Document) : Prop :=
  ∀ q qn, d.get_node q = some qn → List.Chain' (sibR d) qn.children

def childrenNodup (d : Document) : Prop :=
  ∀ q qn, d.get_node q = some qn → qn.children.Nodup

def noSelfParent (d : Document) : Prop :=
  ∀ x q, parentOf d x = some q → x ≠ q

/-- The full link invariant maintained by document construction. -/
def Inv (d : Document) : Prop :=
  linksConsistent d ∧ siblingsChain d ∧ childrenNodup d ∧ noSelfParent d

/-- The DOM construction operations of the claim. -/
inductive DomOp
  | createElement (tag : String) (ns : Option String)
  | createText (content : String)
  | createComment (content : String)
  | appendChild (parentId childId : Nat)

def execOp (d : Document) : DomOp → Document
  | .createElement t ns => (d.create_element t ns).1
  | .createText s => (d.create_text s).1
  | .createComment s => (d.create_comment s).1
  | .appendChild p c => d.append_child p c

def execOps (d : Document) (ops : List DomOp) : Document :=
  ops.foldl execOp d

/-- A valid step in the claim's sense: the appended child is an id returned
by an earlier create call (a non-root arena id of the same document), the
parent exists, the child is not appended to itself, and it has not been
appended before (its parent pointer is still unset). -/
def validOp (d : Document) : DomOp → Bool
  | .appendChild p c =>
      decide (p < d.node_count) && decide (c < d.node_count) && decide (0 < c) &&
      decide (c ≠ p) && (parentOf d c).isNone
  | _ => true

inductive ValidOps : Document → List DomOp → Prop
  | nil (d : Document) : ValidOps d []
  | cons (d : Document) (op : DomOp) (ops : List DomOp) :
      validOp d op = true → ValidOps (execOp d op) ops → ValidOps d (op :: ops)

theorem doc_get_modify_self (d : Document) (i : Nat) (f : Node → Node) :
    (d.modifyNode i f).get_node i = (d.get_node i).map f :=
  get?_listModify_self _ _ _

theorem doc_get_modify_ne (d : Document) (i : Nat) (f : Node → Node) (j : Nat)
    (h : j ≠ i) : (d.modifyNode i f).get_node j = d.get_node j :=
  get?_listModify_ne _ _ _ _ h

theorem get_node_cacheUpdate (d : Document) (cid j : Nat) :
    (d.cacheUpdate cid).get_node j = d.get_node j := by
  unfold Document.cacheUpdate
  split_ifs <;> rfl

theorem sibUpdate_none (d : Document) (p c : Nat)
    (h : (d.get_node p).bind (fun n => n.children.getLast?) = none) :
    d.sibUpdate p c = d := by
  unfold Document.sibUpdate
  rw [h]

theorem sibUpdate_some (d : Document) (p c last : Nat)
    (h : (d.get_node p).bind (fun n => n.children.getLast?) = some last) :
    d.sibUpdate p c =
      (d.modifyNode last (fun n => { n with nextSibling := some c })).modifyNode
        c (fun n => { n with prevSibling := some last }) := by
  unfold Document.sibUpdate
  rw [h]

theorem parentOf_eq_some (d : Document) (x q : Nat) :
    parentOf d x = some q ↔ ∃ xn, d.get_node x = some xn ∧ xn.parent = some q := by
  unfold parentOf
  cases d.get_node x <;> simp

theorem validOp_append (d : Document) (p c : Nat)
    (h : validOp d (.appendChild p c) = true) :
    p < d.node_count ∧ c < d.node_count ∧ 0 < c ∧ c ≠ p ∧ parentOf d c = none := by
  simp only [validOp, Bool.and_eq_true, decide_eq_true_eq,
    Option.isNone_iff_eq_none] at h
  exact ⟨h.1.1.1.1, h.1.1.1.2, h.1.1.2, h.1.2, h.2⟩

theorem inv_congr (d1 d2 : Document) (hg : ∀ j, d2.get_node j = d1.get_node j)
    (h : Inv d1) : Inv d2 := by
  obtain ⟨hl, hs, hn, hsp⟩ := h
  have hpar : ∀ x, parentOf d2 x = parentOf d1 x := fun x => by
    unfold parentOf; rw [hg]
  have hnext : ∀ x, nextOf d2 x = nextOf d1 x := fun x => by
    unfold nextOf; rw [hg]
  have hprev : ∀ x, prevOf d2 x = prevOf d1 x := fun x => by
    unfold prevOf; rw [hg]
  have hchl : ∀ q x, inChildList d2 q x ↔ inChildList d1 q x := fun q x => by
    unfold inChildList; rw [hg]
  refine ⟨fun x q => by rw [hpar, hchl]; exact hl x q, ?_, ?_, ?_⟩
  · intro q qn hq
    rw [hg] at hq
    exact List.Chain'.imp
      (fun a b hab => ⟨by rw [hnext]; exact hab.1, by rw [hprev]; exact hab.2⟩)
      (hs q qn hq)
  · intro q qn hq
    rw [hg] at hq
    exact hn q qn hq
  · intro x q hx
    rw [hpar] at hx
    exact hsp x q hx

theorem chain'_transfer_mem (R S : Nat → Nat → Prop) (l : List Nat)
    (h : ∀ a ∈ l, ∀ b ∈ l, R a b → S a b) (hc : List.Chain' R l) :
    List.Chain' S l := by
  rw [List.chain'_iff_get] at hc ⊢
  intro i hi
  exact h _ (List.get_mem l i _) _ (List.get_mem l (i + 1) _) (hc i hi)

/-- `Document::new` satisfies the link invariant. -/
theorem inv_new : Inv Document.new := by
  have hpar : ∀ x, parentOf Document.new x = none := by
    intro x
    match x with
    | 0 => rfl
    | x + 1 => rfl
  have hget : ∀ q qn, Document.new.get_node q = some qn → qn.children = [] := by
    intro q qn hq
    match q with
    | 0 =>
      have : qn = Node.mkNew 0 .document := by
        injection hq with h
        exact h.symm
      rw [this]; rfl
    | q + 1 => exact absurd hq (by intro h; exact Option.noConfusion h)
  refine ⟨?_, ?_, ?_, ?_⟩
  · intro x q
    constructor
    · intro hx
      rw [hpar] at hx
      exact absurd hx (by intro h; exact Option.noConfusion h)
    · rintro ⟨qn, hq, hm⟩
      rw [hget q qn hq] at hm
      exact absurd hm (List.not_mem_nil x)
  · intro q qn hq
    rw [hget q qn hq]
    exact List.chain'_nil
  · intro q qn hq
    rw [hget q qn hq]
    exact List.nodup_nil
  · intro x q hx
    rw [hpar] at hx
    exact absurd hx (by intro h; exact Option.noConfusion h)

theorem get_node_extend (d : Document) (nd : NodeData) (j : Nat) :
    (({ d with nodes := d.nodes ++ [Node.mkNew d.nodes.length nd] } : Document)).get_node j =
      if j = d.nodes.length then some (Node.mkNew d.nodes.length nd)
      else d.get_node j := by
  rcases Nat.lt_trichotomy j d.nodes.length with h | h | h
  · rw [if_neg (Nat.ne_of_lt h)]
    exact List.get?_append h
  · subst h
    rw [if_pos rfl]
    exact List.get?_concat_length _ _
  · rw [if_neg (Nat.ne_of_gt h)]
    show (d.nodes ++ [Node.mkNew d.nodes.length nd]).get? j = d.nodes.get? j
    rw [List.get?_eq_none.2 (by simp; omega), List.get?_eq_none.2 (by omega)]

theorem bindField_extend (d : Document) (nd : NodeData) (g : Node → Option Nat)
    (hg : g (Node.mkNew d.nodes.length nd) = none) (x : Nat) :
    ((({ d with nodes := d.nodes ++ [Node.mkNew d.nodes.length nd] } : Document)).get_node x).bind g =
      (d.get_node x).bind g := by
  rw [get_node_extend]
  split
  · next h =>
    subst h
    have h2 : d.get_node d.nodes.length = none := List.get?_eq_none.2 (le_refl _)
    rw [h2, Option.some_bind, Option.none_bind, hg]
  · rfl

theorem inChildList_extend (d : Document) (nd : NodeData) (q x : Nat) :
    inChildList ({ d with nodes := d.nodes ++ [Node.mkNew d.nodes.length nd] }) q x ↔
      inChildList d q x := by
  unfold inChildList
  rw [get_node_extend]
  split
  · next h =>
    subst h
    constructor
    · rintro ⟨qn, hq, hm⟩
      injection hq with hq
      rw [← hq] at hm
      exact absurd hm (List.not_mem_nil x)
    · rintro ⟨qn, hq, hm⟩
      have h2 : d.get_node d.nodes.length = none := List.get?_eq_none.2 (le_refl _)
      rw [h2] at hq
      exact absurd hq (by intro h'; exact Option.noConfusion h')
  · exact Iff.rfl

/-- Appending a fresh parentless, childless, siblingless node preserves the
link invariant (covers all three create operations). -/
theorem inv_extend (d : Document) (nd : NodeData) (h : Inv d) :
    Inv ({ d with nodes := d.nodes ++ [Node.mkNew d.nodes.length nd] }) := by
  obtain ⟨hl, hs, hn, hsp⟩ := h
  refine ⟨?_, ?_, ?_, ?_⟩
  · intro x q
    rw [show parentOf ({ d with nodes := d.nodes ++ [Node.mkNew d.nodes.length nd] }) x =
          parentOf d x from bindField_extend d nd Node.parent rfl x,
        inChildList_extend]
    exact hl x q
  · intro q qn hq
    rw [get_node_extend] at hq
    by_cases hq0 : q = d.nodes.length
    · rw [if_pos hq0] at hq
      injection hq with hq
      rw [← hq]
      exact List.chain'_nil
    · rw [if_neg hq0] at hq
      exact List.Chain'.imp
        (fun a b hab =>
          ⟨by rw [show nextOf ({ d with nodes := d.nodes ++ [Node.mkNew d.nodes.length nd] }) a =
                nextOf d a from bindField_extend d nd Node.nextSibling rfl a]; exact hab.1,
           by rw [show prevOf ({ d with nodes := d.nodes ++ [Node.mkNew d.nodes.length nd] }) b =
                prevOf d b from bindField_extend d nd Node.prevSibling rfl b]; exact hab.2⟩)
        (hs q qn hq)
  · intro q qn hq
    rw [get_node_extend] at hq
    by_cases hq0 : q = d.nodes.length
    · rw [if_pos hq0] at hq
      injection hq with hq
      rw [← hq]
      exact List.nodup_nil
    · rw [if_neg hq0] at hq
      exact hn q qn hq
  · intro x q hx
    rw [show parentOf ({ d with nodes := d.nodes ++ [Node.mkNew d.nodes.length nd] }) x =
          parentOf d x from bindField_extend d nd Node.parent rfl x] at hx
    exact hsp x q hx

theorem links_of_maps (d A : Document) (p c : Nat) (pn : Node)
    (hl : linksConsistent d) (hpn : d.get_node p = some pn)
    (hnotin : ∀ q, ¬ inChildList d q c)
    (hparA_c : parentOf A c = some p)
    (hparA : ∀ x, x ≠ c → parentOf A x = parentOf d x)
    (hchlA_p : ∀ x, inChildList A p x ↔ x ∈ pn.children ++ [c])
    (hchlA : ∀ q x, q ≠ p → (inChildList A q x ↔ inChildList d q x)) :
    linksConsistent A := by
  have hchld_p : ∀ x, inChildList d p x ↔ x ∈ pn.children := by
    intro x
    constructor
    · rintro ⟨qn, hq, hm⟩
      rw [hpn] at hq
      injection hq with hq
      rw [hq]
      exact hm
    · intro hm
      exact ⟨pn, hpn, hm⟩
  intro x q
  by_cases hx : x = c
  · subst hx
    rw [hparA_c]
    constructor
    · intro hq
      injection hq with hq
      subst hq
      exact (hchlA_p x).mpr (List.mem_append_right _ (List.mem_singleton.mpr rfl))
    · intro hin
      by_cases hqp : q = p
      · rw [hqp]
      · exact absurd ((hchlA q x hqp).mp hin) (hnotin q)
  · rw [hparA x hx]
    by_cases hqp : q = p
    · subst hqp
      rw [hchlA_p x]
      constructor
      · intro hq
        exact List.mem_append_left _ ((hchld_p x).mp ((hl x q).mp hq))
      · intro hm
        rcases List.mem_append.mp hm with hm | hm
        · exact (hl x q).mpr ((hchld_p x).mpr hm)
        · exact absurd (List.mem_singleton.mp hm) hx
    · rw [hchlA q x hqp]
      exact hl x q

theorem noSelf_of_maps (d A : Document) (p c : Nat)
    (hsp : noSelfParent d) (hcp : c ≠ p)
    (hparA_c : parentOf A c = some p)
    (hparA : ∀ x, x ≠ c → parentOf A x = parentOf d x) :
    noSelfParent A := by
  intro x q hx
  by_cases hxc : x = c
  · subst hxc
    rw [hparA_c] at hx
    injection hx with hx
    subst hx
    exact hcp
  · rw [hparA x hxc] at hx
    exact hsp x q hx

/-- `append_child` preserves the link invariant for a valid append. -/
theorem inv_append (d : Document) (p c : Nat)
    (hv : validOp d (.appendChild p c) = true) (h : Inv d) :
    Inv (d.append_child p c) := by
  obtain ⟨hp, hc, h0c, hcp, hnone⟩ := validOp_append d p c hv
  obtain ⟨hl, hs, hn, hsp⟩ := h
  obtain ⟨pn, hpn⟩ : ∃ pn, d.get_node p = some pn := ⟨_, List.get?_eq_get hp⟩
  obtain ⟨cn, hcn⟩ : ∃ cn, d.get_node c = some cn := ⟨_, List.get?_eq_get hc⟩
  have hparc : cn.parent = none := by
    unfold parentOf at hnone
    rw [hcn, Option.some_bind] at hnone
    exact hnone
  have hnotin : ∀ q, ¬ inChildList d q c := by
    intro q hq
    have h2 := (hl c q).mpr hq
    rw [hnone] at h2
    exact Option.noConfusion h2
  have hnotinp : c ∉ pn.children := fun hm => hnotin p ⟨pn, hpn, hm⟩
  have hfin : Inv ((d.sibUpdate p c).linkUpdate p c) → Inv (d.append_child p c) := by
    intro hA
    exact inv_congr _ _ (fun j => get_node_cacheUpdate _ _ _) hA
  apply hfin
  cases hlast : (d.get_node p).bind (fun n => n.children.getLast?) with
  | none =>
    rw [sibUpdate_none d p c hlast]
    have hchnil : pn.children = [] := by
      rw [hpn, Option.some_bind] at hlast
      exact List.getLast?_eq_none_iff.1 hlast
    have gAp : (d.linkUpdate p c).get_node p =
        some { pn with children := pn.children ++ [c] } := by
      show ((d.modifyNode c _).modifyNode p _).get_node p = _
      rw [doc_get_modify_self, doc_get_modify_ne _ _ _ _ (Ne.symm hcp), hpn]
      rfl
    have gAc : (d.linkUpdate p c).get_node c = some { cn with parent := some p } := by
      show ((d.modifyNode c _).modifyNode p _).get_node c = _
      rw [doc_get_modify_ne _ _ _ _ hcp, doc_get_modify_self, hcn]
      rfl
    have gAo : ∀ j, j ≠ p → j ≠ c → (d.linkUpdate p c).get_node j = d.get_node j := by
      intro j hjp hjc
      show ((d.modifyNode c _).modifyNode p _).get_node j = _
      rw [doc_get_modify_ne _ _ _ _ hjp, doc_get_modify_ne _ _ _ _ hjc]
    have hparA_c : parentOf (d.linkUpdate p c) c = some p := by
      unfold parentOf
      rw [gAc]
      rfl
    have hparA : ∀ x, x ≠ c → parentOf (d.linkUpdate p c) x = parentOf d x := by
      intro x hx
      unfold parentOf
      by_cases hxp : x = p
      · subst hxp
        rw [gAp, hpn]
        rfl
      · rw [gAo x hxp hx]
    have hnextA : ∀ x, nextOf (d.linkUpdate p c) x = nextOf d x := by
      intro x
      unfold nextOf
      by_cases hxp : x = p
      · subst hxp
        rw [gAp, hpn]
        rfl
      · by_cases hxc : x = c
        · subst hxc
          rw [gAc, hcn]
          rfl
        · rw [gAo x hxp hxc]
    have hprevA : ∀ x, prevOf (d.linkUpdate p c) x = prevOf d x := by
      intro x
      unfold prevOf
      by_cases hxp : x = p
      · subst hxp
        rw [gAp, hpn]
        rfl
      · by_cases hxc : x = c
        · subst hxc
          rw [gAc, hcn]
          rfl
        · rw [gAo x hxp hxc]
    have hchlA_p : ∀ x, inChildList (d.linkUpdate p c) p x ↔ x ∈ pn.children ++ [c] := by
      intro x
      constructor
      · rintro ⟨qn, hqe, hm⟩
        rw [gAp] at hqe
        injection hqe with hqe
        rw [← hqe] at hm
        exact hm
      · intro hm
        exact ⟨_, gAp, hm⟩
    have hchlA : ∀ q x, q ≠ p → (inChildList (d.linkUpdate p c) q x ↔ inChildList d q x) := by
      intro q x hq
      unfold inChildList
      by_cases hqc : q = c
      · subst hqc
        rw [gAc, hcn]
        constructor
        · rintro ⟨qn, hqe, hm⟩
          injection hqe with hqe
          rw [← hqe] at hm
          exact ⟨cn, rfl, hm⟩
        · rintro ⟨qn, hqe, hm⟩
          injection hqe with hqe
          rw [← hqe] at hm
          exact ⟨_, rfl, hm⟩
      · rw [gAo q hq hqc]
    refine ⟨links_of_maps d _ p c pn hl hpn hnotin hparA_c hparA hchlA_p hchlA,
      ?_, ?_, noSelf_of_maps d _ p c hsp hcp hparA_c hparA⟩
    · intro q qn hq
      by_cases hqp : q = p
      · subst hqp
        rw [gAp] at hq
        injection hq with hq
        rw [← hq]
        show List.Chain' _ (pn.children ++ [c])
        rw [hchnil, List.nil_append]
        exact List.chain'_singleton c
      · by_cases hqc : q = c
        · subst hqc
          rw [gAc] at hq
          injection hq with hq
          rw [← hq]
          show List.Chain' _ cn.children
          exact List.Chain'.imp
            (fun a b hab => ⟨by rw [hnextA]; exact hab.1, by rw [hprevA]; exact hab.2⟩)
            (hs q cn hcn)
        · rw [gAo q hqp hqc] at hq
          exact List.Chain'.imp
            (fun a b hab => ⟨by rw [hnextA]; exact hab.1, by rw [hprevA]; exact hab.2⟩)
            (hs q qn hq)
    · intro q qn hq
      by_cases hqp : q = p
      · subst hqp
        rw [gAp] at hq
        injection hq with hq
        rw [← hq]
        show (pn.children ++ [c]).Nodup
        simp [List.nodup_append, hn q pn hpn, hnotinp]
      · by_cases hqc : q = c
        · subst hqc
          rw [gAc] at hq
          injection hq with hq
          rw [← hq]
          show (cn.children).Nodup
          exact hn q cn hcn
        · rw [gAo q hqp hqc] at hq
          exact hn q qn hq
  | some last =>
    have hlast2 : pn.children.getLast? = some last := by
      rw [hpn, Option.some_bind] at hlast
      exact hlast
    have hlmem : last ∈ pn.children := by
      rw [List.getLast?_eq_getElem? pn.children] at hlast2
      exact List.getElem?_mem hlast2
    have hlpar : parentOf d last = some p := (hl last p).mpr ⟨pn, hpn, hlmem⟩
    obtain ⟨lastn, hlastn, hlastp⟩ := (parentOf_eq_some d last p).1 hlpar
    have hlc : last ≠ c := by
      intro he
      rw [he, hnone] at hlpar
      exact Option.noConfusion hlpar
    have hlp : last ≠ p := hsp last p hlpar
    have gAp : ((d.sibUpdate p c).linkUpdate p c).get_node p =
        some { pn with children := pn.children ++ [c] } := by
      rw [sibUpdate_some d p c last hlast]
      show ((((d.modifyNode last _).modifyNode c _).modifyNode c _).modifyNode p _).get_node p = _
      rw [doc_get_modify_self, doc_get_modify_ne _ _ _ _ (Ne.symm hcp),
        doc_get_modify_ne _ _ _ _ (Ne.symm hcp), doc_get_modify_ne _ _ _ _ (Ne.symm hlp), hpn]
      rfl
    have gAc : ((d.sibUpdate p c).linkUpdate p c).get_node c =
        some { cn with prevSibling := some last, parent := some p } := by
      rw [sibUpdate_some d p c last hlast]
      show ((((d.modifyNode last _).modifyNode c _).modifyNode c _).modifyNode p _).get_node c = _
      rw [doc_get_modify_ne _ _ _ _ hcp, doc_get_modify_self, doc_get_modify_self,
        doc_get_modify_ne _ _ _ _ (Ne.symm hlc), hcn]
      rfl
    have gAl : ((d.sibUpdate p c).linkUpdate p c).get_node last =
        some { lastn with nextSibling := some c } := by
      rw [sibUpdate_some d p c last hlast]
      show ((((d.modifyNode last _).modifyNode c _).modifyNode c _).modifyNode p _).get_node last = _
      rw [doc_get_modify_ne _ _ _ _ hlp, doc_get_modify_ne _ _ _ _ hlc,
        doc_get_modify_ne _ _ _ _ hlc, doc_get_modify_self, hlastn]
      rfl
    have gAo : ∀ j, j ≠ p → j ≠ c → j ≠ last →
        ((d.sibUpdate p c).linkUpdate p c).get_node j = d.get_node j := by
      intro j hjp hjc hjl
      rw [sibUpdate_some d p c last hlast]
      show ((((d.modifyNode last _).modifyNode c _).modifyNode c _).modifyNode p _).get_node j = _
      rw [doc_get_modify_ne _ _ _ _ hjp, doc_get_modify_ne _ _ _ _ hjc,
        doc_get_modify_ne _ _ _ _ hjc, doc_get_modify_ne _ _ _ _ hjl]
    have hparA_c : parentOf ((d.sibUpdate p c).linkUpdate p c) c = some p := by
      unfold parentOf
      rw [gAc]
      rfl
    have hparA : ∀ x, x ≠ c →
        parentOf ((d.sibUpdate p c).linkUpdate p c) x = parentOf d x := by
      intro x hx
      unfold parentOf
      by_cases hxp : x = p
      · subst hxp
        rw [gAp, hpn]
        rfl
      · by_cases hxl : x = last
        · subst hxl
          rw [gAl, hlastn]
          rfl
        · rw [gAo x hxp hx hxl]
    have hnextA_l : nextOf ((d.sibUpdate p c).linkUpdate p c) last = some c := by
      unfold nextOf
      rw [gAl]
      rfl
    have hnextA : ∀ x, x ≠ last →
        nextOf ((d.sibUpdate p c).linkUpdate p c) x = nextOf d x := by
      intro x hx
      unfold nextOf
      by_cases hxp : x = p
      · subst hxp
        rw [gAp, hpn]
        rfl
      · by_cases hxc : x = c
        · subst hxc
          rw [gAc, hcn]
          rfl
        · rw [gAo x hxp hxc hx]
    have hprevA_c : prevOf ((d.sibUpdate p c).linkUpdate p c) c = some last := by
      unfold prevOf
      rw [gAc]
      rfl
    have hprevA : ∀ x, x ≠ c →
        prevOf ((d.sibUpdate p c).linkUpdate p c) x = prevOf d x := by
      intro x hx
      unfold prevOf
      by_cases hxp : x = p
      · subst hxp
        rw [gAp, hpn]
        rfl
      · by_cases hxl : x = last
        · subst hxl
          rw [gAl, hlastn]
          rfl
        · rw [gAo x hxp hx hxl]
    have hchlA_p : ∀ x,
        inChildList ((d.sibUpdate p c).linkUpdate p c) p x ↔
          x ∈ pn.children ++ [c] := by
      intro x
      constructor
      · rintro ⟨qn, hqe, hm⟩
        rw [gAp] at hqe
        injection hqe with hqe
        rw [← hqe] at hm
        exact hm
      · intro hm
        exact ⟨_, gAp, hm⟩
    have hchlA : ∀ q x, q ≠ p →
        (inChildList ((d.sibUpdate p c).linkUpdate p c) q x ↔
          inChildList d q x) := by
      intro q x hq
      unfold inChildList
      by_cases hqc : q = c
      · subst hqc
        rw [gAc, hcn]
        constructor
        · rintro ⟨qn, hqe, hm⟩
          injection hqe with hqe
          rw [← hqe] at hm
          exact ⟨cn, rfl, hm⟩
        · rintro ⟨qn, hqe, hm⟩
          injection hqe with hqe
          rw [← hqe] at hm
          exact ⟨_, rfl, hm⟩
      · by_cases hql : q = last
        · subst hql
          rw [gAl, hlastn]
          constructor
          · rintro ⟨qn, hqe, hm⟩
            injection hqe with hqe
            rw [← hqe] at hm
            exact ⟨lastn, rfl, hm⟩
          · rintro ⟨qn, hqe, hm⟩
            injection hqe with hqe
            rw [← hqe] at hm
            exact ⟨_, rfl, hm⟩
        · rw [gAo q hq hqc hql]
    refine ⟨links_of_maps d _ p c pn hl hpn hnotin hparA_c hparA hchlA_p hchlA,
      ?_, ?_, noSelf_of_maps d _ p c hsp hcp hparA_c hparA⟩
    · intro q qn hq
      by_cases hqp : q = p
      · subst hqp
        rw [gAp] at hq
        injection hq with hq
        rw [← hq]
        show List.Chain' _ (pn.children ++ [c])
        rw [List.chain'_append]
        refine ⟨?_, List.chain'_singleton c, ?_⟩
        · have hchain := hs q pn hpn
          rw [List.chain'_iff_get] at hchain ⊢
          intro i hi
          have hbmem : pn.children.get ⟨i + 1, by omega⟩ ∈ pn.children :=
            List.get_mem _ _ _
          have hbne : pn.children.get ⟨i + 1, by omega⟩ ≠ c := by
            intro he
            exact hnotinp (he ▸ hbmem)
          have hane : pn.children.get ⟨i, by omega⟩ ≠ last := by
            intro he
            have hlen : pn.children.length - 1 < pn.children.length := by omega
            have hgl : pn.children.get ⟨pn.children.length - 1, hlen⟩ = last := by
              rw [List.getLast?_eq_getElem? pn.children,
                List.getElem?_eq_getElem hlen] at hlast2
              injection hlast2
            have hij := (List.Nodup.get_inj_iff (hn q pn hpn)).1 (he.trans hgl.symm)
            have : i = pn.children.length - 1 := by
              simpa using hij
            omega
          have hR := hchain i hi
          exact ⟨by rw [hnextA _ hane]; exact hR.1, by rw [hprevA _ hbne]; exact hR.2⟩
        · intro x hx y hy
          simp only [Option.mem_def] at hx
          rw [hlast2] at hx
          injection hx with hx
          simp only [List.head?_cons, Option.mem_def, Option.some.injEq] at hy
          rw [← hx, ← hy]
          exact ⟨hnextA_l, hprevA_c⟩
      · by_cases hqc : q = c
        · subst hqc
          rw [gAc] at hq
          injection hq with hq
          rw [← hq]
          show List.Chain' _ cn.children
          refine chain'_transfer_mem (sibR d) _ cn.children ?_ (hs q cn hcn)
          intro a ha b hb hab
          have hane : a ≠ last := by
            intro he
            have h2 := (hl a q).mpr ⟨cn, hcn, ha⟩
            rw [he, hlpar] at h2
            injection h2 with h2
            exact hcp h2.symm
          have hbne : b ≠ q := fun he => hnotin q ⟨cn, hcn, he ▸ hb⟩
          exact ⟨by rw [hnextA _ hane]; exact hab.1, by rw [hprevA _ hbne]; exact hab.2⟩
        · by_cases hql : q = last
          · subst hql
            rw [gAl] at hq
            injection hq with hq
            rw [← hq]
            show List.Chain' _ lastn.children
            refine chain'_transfer_mem (sibR d) _ lastn.children ?_ (hs q lastn hlastn)
            intro a ha b hb hab
            have hane : a ≠ q := by
              intro he
              have h2 := (hl a q).mpr ⟨lastn, hlastn, ha⟩
              rw [he, hlpar] at h2
              injection h2 with h2
              exact hlp h2.symm
            have hbne : b ≠ c := fun he => hnotin q ⟨lastn, hlastn, he ▸ hb⟩
            exact ⟨by rw [hnextA _ hane]; exact hab.1, by rw [hprevA _ hbne]; exact hab.2⟩
          · rw [gAo q hqp hqc hql] at hq
            refine chain'_transfer_mem (sibR d) _ qn.children ?_ (hs q qn hq)
            intro a ha b hb hab
            have hane : a ≠ last := by
              intro he
              have h2 := (hl a q).mpr ⟨qn, hq, ha⟩
              rw [he, hlpar] at h2
              injection h2 with h2
              exact hqp h2.symm
            have hbne : b ≠ c := fun he => hnotin q ⟨qn, hq, he ▸ hb⟩
            exact ⟨by rw [hnextA _ hane]; exact hab.1, by rw [hprevA _ hbne]; exact hab.2⟩
    · intro q qn hq
      by_cases hqp : q = p
      · subst hqp
        rw [gAp] at hq
        injection hq with hq
        rw [← hq]
        show (pn.children ++ [c]).Nodup
        simp [List.nodup_append, hn q pn hpn, hnotinp]
      · by_cases hqc : q = c
        · subst hqc
          rw [gAc] at hq
          injection hq with hq
          rw [← hq]
          show (cn.children).Nodup
          exact hn q cn hcn
        · by_cases hql : q = last
          · subst hql
            rw [gAl] at hq
            injection hq with hq
            rw [← hq]
            show (lastn.children).Nodup
            exact hn q lastn hlastn
          · rw [gAo q hqp hqc hql] at hq
            exact hn q qn hq

theorem inv_execOp (d : Document) (op : DomOp) (hv : validOp d op = true)
    (h : Inv d) : Inv (execOp d op) := by
  cases op with
  | createElement t ns => exact inv_extend d _ h
  | createText s => exact inv_extend d _ h
  | createComment s => exact inv_extend d _ h
  | appendChild p c => exact inv_append d p c hv h

theorem inv_execOps (ops : List DomOp) :
    ∀ d, Inv d → ValidOps d ops → Inv (execOps d ops) := by
  induction ops with
  | nil => intro d h _; exact h
  | cons op ops ih =>
    intro d h hv
    cases hv with
    | cons _ _ _ hop htail =>
      show Inv (execOps (execOp d op) ops)
      exact ih (execOp d op) (inv_execOp d op hop h) htail

/-- C10: after any sequence of create_element/create_text/create_comment and
append_child operations on a fresh document in which every appended child id
was returned by a create call on the same document and each node is appended
at most once (and not to itself), the tree links are mutually consistent: a
node records parent `P` iff it appears in `P`'s child list, and consecutive
entries of any child list are connected by matching next/prev sibling
pointers. -/
theorem c10_dom_link_consistency (ops : List DomOp)
    (h : ValidOps Document.new ops) :
    linksConsistent (execOps Document.new ops) ∧
      siblingsChain (execOps Document.new ops) := by
  have hi := inv_execOps ops Document.new inv_new h
  exact ⟨hi.1, hi.2.1⟩

/-- A concrete construction sequence: html/head/title plus two text nodes
appended under the title (exercising the sibling-link path twice). -/
def c10ops : List DomOp :=
  [.createElement "html" none, .createElement "head" none,
   .createElement "title" none, .createText "Hello ", .createText "World",
   .appendChild 0 1, .appendChild 1 2, .appendChild 2 3,
   .appendChild 3 4, .appendChild 3 5]

theorem c10_dom_link_consistency_witness :
    linksConsistent (execOps Document.new c10ops) ∧
      siblingsChain (execOps Document.new c10ops) :=
  c10_dom_link_consistency c10ops
    (ValidOps.cons _ _ _ rfl (ValidOps.cons _ _ _ rfl (ValidOps.cons _ _ _ rfl
      (ValidOps.cons _ _ _ rfl (ValidOps.cons _ _ _ rfl (ValidOps.cons _ _ _ rfl
        (ValidOps.cons _ _ _ rfl (ValidOps.cons _ _ _ rfl (ValidOps.cons _ _ _ rfl
          (ValidOps.cons _ _ _ rfl (ValidOps.nil _)))))))))))

end Browser
